import Mathlib

/-!
Verification of the npm-scan dependency-snapshot cache and coverage audit
engine against its specification.

The Python source is shallowly embedded: JSON-like Python values become the
inductive type `PyVal`, dictionaries become association lists (Python dicts
preserve insertion order and have unique keys), and every function of the
audited modules (`src/steps/cache_utils.py`, `src/steps/step_03_get_package_lock.py`,
`src/steps/step_04_audit_package_locks.py`) is translated definition by
definition.  External collaborators (the `semantic_version` library, the
filesystem, the network fetcher and the npm invocation) are modelled from the
specification at their interface boundary, as marked in the doc comments.
-/

namespace NpmScan

/-- A Python value as far as the audited code observes it: JSON scalars,
lists, string-keyed dictionaries (association lists in insertion order), and
opaque non-JSON-serialisable objects carrying their `str()` rendering. -/
inductive PyVal where
  | null : PyVal
  | bool (b : Bool) : PyVal
  | int (n : Int) : PyVal
  | str (s : String) : PyVal
  | list (xs : List PyVal) : PyVal
  | dict (kvs : List (String × PyVal)) : PyVal
  | obj (rendered : String) : PyVal

/-- `d.get(k)` on a Python dict represented as an association list:
the first binding wins (Python dicts cannot hold duplicate keys). -/
def lookupKey {α : Type} (k : String) : List (String × α) → Option α
  | [] => none
  | (k2, v) :: rest => if k = k2 then some v else lookupKey k rest

/-- Python `repr()`, modelled as far as the audited code can observe it; used
for elements inside rendered containers.  Container renderings never influence
any claim, only scalar `str()` does. -/
def pyRepr : PyVal → String
  | .null => "None"
  | .bool b => if b then "True" else "False"
  | .int n => toString n
  | .str s => "\x27" ++ s ++ "\x27"
  | .list xs => "[" ++ String.intercalate ", " (xs.attach.map (fun x => pyRepr x.1)) ++ "]"
  | .dict kvs =>
      "\x7b" ++
        String.intercalate ", "
          (kvs.attach.map (fun kv => "\x27" ++ kv.1.1 ++ "\x27: " ++ pyRepr kv.1.2)) ++
      "\x7d"
  | .obj rendered => rendered
termination_by v => sizeOf v
decreasing_by
  · have := List.sizeOf_lt_of_mem x.2
    simp_arith
    omega
  · have := List.sizeOf_lt_of_mem kv.2
    cases h : kv.1 with
    | mk a b => rw [h] at this; simp_arith at this ⊢; omega

/-- Python `str()`: identity on strings, `repr` otherwise (which agrees with
`str` on every other value the audited code meets). -/
def pyStr : PyVal → String
  | .str s => s
  | v => pyRepr v

/-! ## step_04_audit_package_locks.py: the Lock Flattener -/

/-- One flattened package occurrence: the dicts
`{"name": ..., "version": ..., "path": ..., "entry_type": ...}` built by the
flattening functions. -/
structure Occurrence where
  name : String
  version : String
  path : String
  entry_type : String
deriving DecidableEq, Repr

/-- `_normalize_spec_value` of step_04: structured spec objects yield the
first string among the keys `version/specifier/range/requested/resolved`,
`None` yields `""`, anything else is `str(value)`. -/
def _normalize_spec_value (value : Option PyVal) : String :=
  match value with
  | some (.dict d) =>
      match lookupKey "version" d with
      | some (.str s) => s
      | _ =>
        match lookupKey "specifier" d with
        | some (.str s) => s
        | _ =>
          match lookupKey "range" d with
          | some (.str s) => s
          | _ =>
            match lookupKey "requested" d with
            | some (.str s) => s
            | _ =>
              match lookupKey "resolved" d with
              | some (.str s) => s
              | _ => ""
  | some .null => ""
  | none => ""
  | some v => pyStr v

/-- `pre` is a prefix of the second list. -/
def charsPrefix : List Char → List Char → Bool
  | [], _ => true
  | _ :: _, [] => false
  | c :: cs, d :: ds => c == d && charsPrefix cs ds

/-- The characters after the last occurrence of `pat`, or `none` when `pat`
does not occur; implements Python `haystack.split(pat)[-1]` together with the
`pat in haystack` test. -/
def afterLast (pat : List Char) : List Char → Option (List Char)
  | [] => none
  | c :: rest =>
    match afterLast pat rest with
    | some r => some r
    | none =>
        if charsPrefix pat (c :: rest) then some ((c :: rest).drop pat.length)
        else none

/-- `_derive_package_name` of step_04. -/
def _derive_package_name (package_path : String) (pkg_info : List (String × PyVal)) : String :=
  match lookupKey "name" pkg_info with
  | some (.str s) =>
      if s ≠ "" then s else _derive_package_name.fromPath package_path
  | _ => _derive_package_name.fromPath package_path
where
  /-- The path-derived fallback name: the part after the last
  `node_modules/`, or the path itself when that part is empty or the marker
  is absent. -/
  fromPath (package_path : String) : String :=
    if package_path = "" then "<root>"
    else
      match afterLast "node_modules/".toList package_path.toList with
      | some rest => if rest.isEmpty then package_path else String.mk rest
      | none => package_path

/-- The dependency-kind maps scanned by `_iter_dependency_specs`, in source
order, with their entry-type tags. -/
def dependencyKindTags : List (String × String) :=
  [("dependencies", "dependency"),
   ("peerDependencies", "peer"),
   ("devDependencies", "dev"),
   ("optionalDependencies", "optional")]

/-- `_iter_dependency_specs` of step_04: yields
`(dep_name, normalized spec, entry_type)` triples for every dependency-kind
map of the entry that is a dict. -/
def _iter_dependency_specs (pkg_info : List (String × PyVal)) : List (String × String × String) :=
  dependencyKindTags.flatMap fun kt =>
    match lookupKey kt.1 pkg_info with
    | some (.dict deps) =>
        deps.map (fun kv => (kv.1, _normalize_spec_value (some kv.2), kt.2))
    | _ => []

/-- `_flatten_packages_map` of step_04: the flat-generation (`packages` map)
flattener. -/
def _flatten_packages_map (packages : List (String × PyVal)) : List Occurrence :=
  packages.flatMap fun entry =>
    match entry.2 with
    | .dict pkg_info =>
        let name := _derive_package_name entry.1 pkg_info
        let version :=
          let v := _normalize_spec_value (lookupKey "version" pkg_info)
          if v = "" then "unknown" else v
        let path := if entry.1 = "" then "." else entry.1
        ⟨name, version, path, "installed"⟩ ::
          (_iter_dependency_specs pkg_info).map
            (fun d => ⟨d.1, if d.2.1 = "" then "unknown" else d.2.1, path, d.2.2⟩)
    | _ => []

/-- `_compose_legacy_path` of step_04. -/
def _compose_legacy_path (parent_path : String) (name : String) : String :=
  if parent_path = "" then "node_modules/" ++ name
  else parent_path ++ "/node_modules/" ++ name

/-- Lemma support: a value looked up in an association list is structurally
smaller than the list. -/
theorem sizeOf_lookupKey_lt {k : String} {l : List (String × PyVal)} {v : PyVal}
    (h : lookupKey k l = some v) : sizeOf v < sizeOf l := by
  induction l with
  | nil => simp [lookupKey] at h
  | cons hd tl ih =>
    simp only [lookupKey] at h
    by_cases hk : k = hd.1
    · simp [hk] at h
      subst h
      cases hd with
      | mk k2 v2 => simp_arith
    · simp [hk] at h
      have := ih h
      cases hd with
      | mk k2 v2 => simp_arith; omega

/-- `_flatten_legacy_dependencies` of step_04: the nested-generation
flattener, walking a legacy `dependencies` tree. -/
def _flatten_legacy_dependencies (dependencies : List (String × PyVal))
    (parent_path : String) : List Occurrence :=
  match dependencies with
  | [] => []
  | (dep_name, dep_info) :: rest =>
    let path := _compose_legacy_path parent_path dep_name
    (match dep_info with
     | .dict info =>
        let version :=
          let v := _normalize_spec_value (lookupKey "version" info)
          if v = "" then "unknown" else v
        let requiresOccs : List Occurrence :=
          match lookupKey "requires" info with
          | some (.dict reqs) =>
              reqs.map (fun kv =>
                let v := _normalize_spec_value (some kv.2)
                ⟨kv.1, if v = "" then "unknown" else v, path, "dependency"⟩)
          | _ => []
        let nestedOccs : List Occurrence :=
          match h : lookupKey "dependencies" info with
          | some (.dict nested) => _flatten_legacy_dependencies nested path
          | _ => []
        (⟨dep_name, version, path, "installed"⟩ : Occurrence) :: (requiresOccs ++ nestedOccs)
     | _ =>
        let v := _normalize_spec_value (some dep_info)
        [⟨dep_name, if v = "" then "unknown" else v, path, "dependency"⟩])
    ++ _flatten_legacy_dependencies rest parent_path
termination_by sizeOf dependencies
decreasing_by
  · have h1 := sizeOf_lookupKey_lt h
    simp_arith at h1 ⊢
    omega
  · simp_arith

/-- The deduplication loop at the end of `flatten_package_lock_content`:
keeps the first occurrence of each exact `(name, version, path, entry_type)`
tuple. -/
def dedupOccurrences (seen : List Occurrence) : List Occurrence → List Occurrence
  | [] => []
  | pkg :: rest =>
      if pkg ∈ seen then dedupOccurrences seen rest
      else pkg :: dedupOccurrences (pkg :: seen) rest

/-- `flatten_package_lock_content` of step_04: dispatches between the two
schema generations and deduplicates exact-duplicate tuples. -/
def flatten_package_lock_content (lock_content : List (String × PyVal)) : List Occurrence :=
  let flat :=
    match lookupKey "packages" lock_content with
    | some (.dict packages) =>
        if packages.isEmpty then legacyBranch lock_content
        else _flatten_packages_map packages
    | _ => legacyBranch lock_content
  dedupOccurrences [] flat
where
  /-- The `else` arm of the schema dispatch: root record plus legacy walk. -/
  legacyBranch (lock_content : List (String × PyVal)) : List Occurrence :=
    match lookupKey "dependencies" lock_content with
    | some (.dict dependencies) =>
        let rootOcc : List Occurrence :=
          match lookupKey "name" lock_content with
          | some (.str root_name) =>
              if root_name ≠ "" then
                let root_version := _normalize_spec_value (lookupKey "version" lock_content)
                [⟨root_name, if root_version = "" then "unknown" else root_version, ".", "root"⟩]
              else []
          | _ => []
        rootOcc ++ _flatten_legacy_dependencies dependencies ""
    | _ => []

/-! ## The Coverage Evaluator (step_04) and its semantic-version layer

The version arithmetic lives in the external `semantic_version` library
(`Version.coerce`, `NpmSpec`), an external collaborator of the audited code.
It is modelled from the spec (§1 non-goals and §4.5): only the operator
subset `^`, `~`, `>=`, `<=`, `>`, `<`, `==` and exact equality, with
tolerant coercion of loosely-formed version strings. -/

/-- A concrete semantic version (pre-release/build qualifiers are outside the
spec's operator subset and outside this model). -/
structure SemVer where
  major : Nat
  minor : Nat
  patch : Nat
deriving DecidableEq, Repr

/-- Decimal value of a digit run. -/
def digitsToNat (ds : List Char) : Nat :=
  ds.foldl (fun a c => a * 10 + (c.toNat - 48)) 0

/-- Modelled from the spec: `Version.coerce` of the external semantic-version
library (tolerant parsing, §4.5): the string must begin with a digit, reads
`major[.minor[.patch]]`, pads missing components with zero and ignores any
remaining qualifier; otherwise it fails. -/
def coerce (s : String) : Option SemVer :=
  let cs := s.toList
  let (d1, r1) := cs.span Char.isDigit
  if d1.isEmpty then none
  else
    let major := digitsToNat d1
    match r1 with
    | '.' :: rest1 =>
      let (d2, r2) := rest1.span Char.isDigit
      if d2.isEmpty then some ⟨major, 0, 0⟩
      else
        let minor := digitsToNat d2
        match r2 with
        | '.' :: rest2 =>
          let (d3, _) := rest2.span Char.isDigit
          if d3.isEmpty then some ⟨major, minor, 0⟩
          else some ⟨major, minor, digitsToNat d3⟩
        | _ => some ⟨major, minor, 0⟩
    | _ => some ⟨major, 0, 0⟩

/-- A full version string `major[.minor[.patch]]` with nothing left over;
used by the range parser. -/
def parseVersionExact (cs : List Char) : Option SemVer :=
  let (d1, r1) := cs.span Char.isDigit
  if d1.isEmpty then none
  else
    let major := digitsToNat d1
    match r1 with
    | [] => some ⟨major, 0, 0⟩
    | c1 :: rest1 =>
      if c1 ≠ '.' then none
      else
        let (d2, r2) := rest1.span Char.isDigit
        if d2.isEmpty then none
        else
          let minor := digitsToNat d2
          match r2 with
          | [] => some ⟨major, minor, 0⟩
          | c2 :: rest2 =>
            if c2 ≠ '.' then none
            else
              let (d3, r3) := rest2.span Char.isDigit
              if d3.isEmpty then none
              else if r3 ≠ [] then none
              else some ⟨major, minor, digitsToNat d3⟩

/-- One clause of an npm range expression, in the operator subset named by
the spec. -/
inductive NpmClause where
  | caret (v : SemVer)
  | tilde (v : SemVer)
  | ge (v : SemVer)
  | le (v : SemVer)
  | gt (v : SemVer)
  | lt (v : SemVer)
  | eqOp (v : SemVer)
  | exact (v : SemVer)
deriving DecidableEq, Repr

/-- Strict precedence order on versions (major, then minor, then patch). -/
def svLt (a b : SemVer) : Bool :=
  a.major < b.major ||
    (a.major == b.major &&
      (a.minor < b.minor || (a.minor == b.minor && a.patch < b.patch)))

/-- Non-strict precedence order on versions. -/
def svLe (a b : SemVer) : Bool :=
  svLt a b || a == b

/-- Modelled from the spec: `NpmSpec` parsing of the external
semantic-version library (§4.5): an optional operator prefix `^ ~ >= <= ==
> <` followed by a full version; any other expression fails to parse. -/
def safe_npmspec (spec : String) : Option NpmClause :=
  match spec.toList with
  | '^' :: rest => (parseVersionExact rest).map NpmClause.caret
  | '~' :: rest => (parseVersionExact rest).map NpmClause.tilde
  | '>' :: '=' :: rest => (parseVersionExact rest).map NpmClause.ge
  | '<' :: '=' :: rest => (parseVersionExact rest).map NpmClause.le
  | '=' :: '=' :: rest => (parseVersionExact rest).map NpmClause.eqOp
  | '>' :: rest => (parseVersionExact rest).map NpmClause.gt
  | '<' :: rest => (parseVersionExact rest).map NpmClause.lt
  | cs => (parseVersionExact cs).map NpmClause.exact

/-- Modelled from the spec: range membership `version in npmspec` (§4.5):
`^X.Y.Z` means at least `X.Y.Z` with the same major component, `~X.Y.Z`
means at least `X.Y.Z` with the same major and minor components, explicit
comparators compare directly, and otherwise membership is exact equality. -/
def containsVersion (c : NpmClause) (w : SemVer) : Bool :=
  match c with
  | .caret v => svLe v w && w.major == v.major
  | .tilde v => svLe v w && w.major == v.major && w.minor == v.minor
  | .ge v => svLe v w
  | .le v => svLe w v
  | .gt v => svLt v w
  | .lt v => svLt w v
  | .eqOp v => w == v
  | .exact v => w == v

/-- `safe_version` of step_04: `Version.coerce` with failure turned into
`none`. -/
def safe_version (version : String) : Option SemVer :=
  coerce version

/-- One evaluation result dict produced by `evaluate_packages`. -/
structure EvalRow where
  name : String
  current_spec : String
  target_version : Option String
  path : String
  entry_type : String
  covered : Option Bool
  status : String
deriving DecidableEq, Repr

/-- `evaluate_packages` of step_04: joins each occurrence with its target (if
any) and classifies it into `covered / not_covered / invalid_current /
invalid_target / no_target`. -/
def evaluate_packages (packages : List Occurrence)
    (targets_idx : List (String × String)) : List EvalRow :=
  packages.map fun pkg =>
    let name := pkg.name
    let current_spec := pkg.version
    let target_spec := lookupKey name targets_idx
    let covStatus : Option Bool × String :=
      match target_spec with
      | none => (none, "no_target")
      | some ts =>
        if ts = "" then (none, "no_target")
        else
          match safe_version ts with
          | some target_version =>
            match safe_npmspec current_spec with
            | some npmspec =>
                let c := containsVersion npmspec target_version
                (some c, if c then "covered" else "not_covered")
            | none =>
                match safe_version current_spec with
                | some current_version =>
                    let c := current_version == target_version
                    (some c, if c then "covered" else "not_covered")
                | none => (none, "invalid_current")
          | none => (none, "invalid_target")
    ⟨name, current_spec, target_spec, pkg.path, pkg.entry_type,
      covStatus.1, covStatus.2⟩

/-- The row `evaluate_packages` produces for one occurrence. -/
def evalRowFor (pkg : Occurrence) (targets_idx : List (String × String)) : EvalRow :=
  match evaluate_packages [pkg] targets_idx with
  | [row] => row
  | _ => ⟨"", "", none, "", "", none, ""⟩

/-- `evaluate_packages` maps each occurrence independently. -/
theorem evaluate_packages_eq_map (packages : List Occurrence)
    (targets_idx : List (String × String)) :
    evaluate_packages packages targets_idx =
      packages.map (fun pkg => evalRowFor pkg targets_idx) := by
  induction packages with
  | nil => rfl
  | cons hd tl ih =>
    simp only [evaluate_packages, List.map] at ih ⊢
    exact congrArg _ ih

/-- C1 counterexample: with target spec `^2.0.0` and occurrence version
`2.3.1` the evaluator reports `invalid_target`, not `covered`: the target
spec is *coerced as a concrete version* (which fails on `^2.0.0`), it is not
parsed as a range. -/
theorem C1_counterexample :
    (evaluate_packages [⟨"p", "2.3.1", ".", "installed"⟩] [("p", "^2.0.0")]).map
        EvalRow.status = ["invalid_target"] ∧
      "invalid_target" ≠ "covered" := by
  decide

/-- C1 (amended): coverage is evaluated with the roles reversed relative to
the original claim: for every occurrence whose recorded string parses as a
range expression and every target whose declared spec coerces to a concrete
semantic version, the evaluator reports coverage exactly when the *target's
version* lies in the *occurrence's range*: occurrence spec `^2.0.0` covers
target version `2.3.1` (status `covered`, covered=true) but not `3.0.0` or
`1.9.9` (status `not_covered`, covered=false); occurrence spec `~1.2.0`
covers target `1.2.9` and not `1.3.0`. -/
theorem C1_theorem :
    (∀ (packages : List Occurrence) (targets_idx : List (String × String))
        (pkg : Occurrence) (ts : String) (tv : SemVer) (r : NpmClause),
        pkg ∈ packages →
        lookupKey pkg.name targets_idx = some ts →
        ts ≠ "" →
        safe_version ts = some tv →
        safe_npmspec pkg.version = some r →
        (⟨pkg.name, pkg.version, some ts, pkg.path, pkg.entry_type,
            some (containsVersion r tv),
            if containsVersion r tv then "covered" else "not_covered"⟩ : EvalRow)
          ∈ evaluate_packages packages targets_idx) ∧
      (evaluate_packages [⟨"p", "^2.0.0", ".", "dependency"⟩] [("p", "2.3.1")]).map
          (fun row => (row.covered, row.status)) = [(some true, "covered")] ∧
      (evaluate_packages [⟨"p", "^2.0.0", ".", "dependency"⟩] [("p", "3.0.0")]).map
          (fun row => (row.covered, row.status)) = [(some false, "not_covered")] ∧
      (evaluate_packages [⟨"p", "^2.0.0", ".", "dependency"⟩] [("p", "1.9.9")]).map
          (fun row => (row.covered, row.status)) = [(some false, "not_covered")] ∧
      (evaluate_packages [⟨"p", "~1.2.0", ".", "dependency"⟩] [("p", "1.2.9")]).map
          EvalRow.status = ["covered"] ∧
      (evaluate_packages [⟨"p", "~1.2.0", ".", "dependency"⟩] [("p", "1.3.0")]).map
          EvalRow.status = ["not_covered"] := by
  refine ⟨?_, by decide, by decide, by decide, by decide, by decide⟩
  intro packages targets_idx pkg ts tv r hmem hlook hts hsv hns
  refine List.mem_map.mpr ⟨pkg, hmem, ?_⟩
  simp [hlook, hts, hsv, hns]

/-- Witness for C1: the general part instantiated at occurrence spec
`^2.0.0` against target version `2.3.1`. -/
theorem C1_witness :
    (⟨"p", "^2.0.0", some "2.3.1", ".", "dependency", some true, "covered"⟩ : EvalRow)
      ∈ evaluate_packages [⟨"p", "^2.0.0", ".", "dependency"⟩] [("p", "2.3.1")] :=
  C1_theorem.1 [⟨"p", "^2.0.0", ".", "dependency"⟩] [("p", "2.3.1")]
    ⟨"p", "^2.0.0", ".", "dependency"⟩ "2.3.1" ⟨2, 3, 1⟩ (.caret ⟨2, 0, 0⟩)
    (List.mem_singleton.mpr rfl) (by decide) (by decide) (by decide) (by decide)

/-- C2 counterexample: the occurrence string `file:../local` evaluated
against the target spec `^1.0.0` yields `invalid_target`, not
`invalid_current`: a target spec that fails to coerce wins regardless of the
occurrence string. -/
theorem C2_counterexample :
    (evaluate_packages [⟨"p", "file:../local", ".", "dependency"⟩]
          [("p", "^1.0.0")]).map EvalRow.status = ["invalid_target"] ∧
      "invalid_target" ≠ "invalid_current" := by
  decide

/-- C2 (amended): for every occurrence evaluated against a target present in
the index, the target's spec is checked first: if it fails to coerce to a
version the status is `invalid_target` (whatever the occurrence string); if
the target coerces but the occurrence's string neither parses as a range nor
coerces as a version, the status is `invalid_current`; in neither case is the
row classified `covered` or `not_covered` (covered stays unset).  An
occurrence `file:../local` yields `invalid_current` exactly against target
specs that coerce as versions. -/
theorem C2_theorem :
    (∀ (packages : List Occurrence) (targets_idx : List (String × String))
        (pkg : Occurrence) (ts : String),
        pkg ∈ packages →
        lookupKey pkg.name targets_idx = some ts →
        ts ≠ "" →
        safe_version ts = none →
        (⟨pkg.name, pkg.version, some ts, pkg.path, pkg.entry_type,
            none, "invalid_target"⟩ : EvalRow)
          ∈ evaluate_packages packages targets_idx) ∧
      (∀ (packages : List Occurrence) (targets_idx : List (String × String))
          (pkg : Occurrence) (ts : String) (tv : SemVer),
          pkg ∈ packages →
          lookupKey pkg.name targets_idx = some ts →
          ts ≠ "" →
          safe_version ts = some tv →
          safe_npmspec pkg.version = none →
          safe_version pkg.version = none →
          (⟨pkg.name, pkg.version, some ts, pkg.path, pkg.entry_type,
              none, "invalid_current"⟩ : EvalRow)
            ∈ evaluate_packages packages targets_idx) ∧
      "invalid_target" ≠ "covered" ∧ "invalid_target" ≠ "not_covered" ∧
      "invalid_current" ≠ "covered" ∧ "invalid_current" ≠ "not_covered" ∧
      (evaluate_packages [⟨"p", "file:../local", ".", "dependency"⟩]
          [("p", "1.0.0")]).map (fun row => (row.covered, row.status)) =
        [(none, "invalid_current")] := by
  refine ⟨?_, ?_, by decide, by decide, by decide, by decide, by decide⟩
  · intro packages targets_idx pkg ts hmem hlook hts hsv
    refine List.mem_map.mpr ⟨pkg, hmem, ?_⟩
    simp [hlook, hts, hsv]
  · intro packages targets_idx pkg ts tv hmem hlook hts hsv hns hcv
    refine List.mem_map.mpr ⟨pkg, hmem, ?_⟩
    simp [hlook, hts, hsv, hns, hcv]

/-- Witness for C2: both general parts instantiated: target `^1.0.0` fails
to coerce (status `invalid_target`), and occurrence `file:../local` against
the coercible target `1.0.0` gives `invalid_current`. -/
theorem C2_witness :
    (⟨"p", "file:../local", some "^1.0.0", ".", "dependency",
        none, "invalid_target"⟩ : EvalRow)
        ∈ evaluate_packages [⟨"p", "file:../local", ".", "dependency"⟩]
            [("p", "^1.0.0")] ∧
      (⟨"p", "file:../local", some "1.0.0", ".", "dependency",
          none, "invalid_current"⟩ : EvalRow)
        ∈ evaluate_packages [⟨"p", "file:../local", ".", "dependency"⟩]
            [("p", "1.0.0")] :=
  ⟨C2_theorem.1 [⟨"p", "file:../local", ".", "dependency"⟩] [("p", "^1.0.0")]
      ⟨"p", "file:../local", ".", "dependency"⟩ "^1.0.0"
      (List.mem_singleton.mpr rfl) (by decide) (by decide) (by decide),
    C2_theorem.2.1 [⟨"p", "file:../local", ".", "dependency"⟩] [("p", "1.0.0")]
      ⟨"p", "file:../local", ".", "dependency"⟩ "1.0.0" ⟨1, 0, 0⟩
      (List.mem_singleton.mpr rfl) (by decide) (by decide) (by decide)
      (by decide) (by decide)⟩

/-! ## Properties of the flatteners -/

/-- The deduplication loop keeps exactly the tuples not seen before. -/
theorem mem_dedupOccurrences {o : Occurrence} :
    ∀ (seen : List Occurrence) (l : List Occurrence),
      o ∈ dedupOccurrences seen l ↔ (o ∈ l ∧ o ∉ seen) := by
  intro seen l
  induction l generalizing seen with
  | nil => simp [dedupOccurrences]
  | cons hd tl ih =>
    simp only [dedupOccurrences]
    by_cases hmem : hd ∈ seen
    · rw [if_pos hmem, ih]
      by_cases ho : o = hd
      · subst ho; simp [hmem]
      · simp [ho]
    · rw [if_neg hmem]
      by_cases ho : o = hd
      · subst ho; simp [hmem]
      · simp [List.mem_cons, ih, ho]

/-- The deduplication loop emits no duplicate tuples. -/
theorem dedupOccurrences_nodup :
    ∀ (seen : List Occurrence) (l : List Occurrence),
      (dedupOccurrences seen l).Nodup := by
  intro seen l
  induction l generalizing seen with
  | nil => simp [dedupOccurrences]
  | cons hd tl ih =>
    simp only [dedupOccurrences]
    by_cases hmem : hd ∈ seen
    · rw [if_pos hmem]; exact ih seen
    · rw [if_neg hmem]
      refine List.nodup_cons.mpr ⟨?_, ih _⟩
      intro hcon
      exact ((mem_dedupOccurrences _ _).mp hcon).2 (List.mem_cons_self _ _)

/-- Every dependency triple yielded by `_iter_dependency_specs` carries one
of the four dependency-kind tags of the source mapping. -/
theorem iter_dependency_specs_tag {pkg_info : List (String × PyVal)}
    {d : String × String × String} (h : d ∈ _iter_dependency_specs pkg_info) :
    d.2.2 = "dependency" ∨ d.2.2 = "peer" ∨ d.2.2 = "dev" ∨ d.2.2 = "optional" := by
  simp only [_iter_dependency_specs, List.mem_flatMap] at h
  obtain ⟨kt, hkt, hd⟩ := h
  have htag : kt.2 = "dependency" ∨ kt.2 = "peer" ∨ kt.2 = "dev" ∨ kt.2 = "optional" := by
    simp [dependencyKindTags] at hkt
    rcases hkt with h | h | h | h <;> rw [h] <;> simp
  revert hd
  cases hl : lookupKey kt.1 pkg_info with
  | none => simp
  | some v =>
    cases v <;> simp
    intro kv x hkv he
    rw [← he]
    exact htag

/-- Every occurrence emitted by the flat-generation flattener is tagged
`installed` or with a dependency-kind tag; in particular never `root`. -/
theorem packages_map_entry_type {packages : List (String × PyVal)} {o : Occurrence}
    (h : o ∈ _flatten_packages_map packages) :
    o.entry_type = "installed" ∨ o.entry_type = "dependency" ∨
      o.entry_type = "peer" ∨ o.entry_type = "dev" ∨ o.entry_type = "optional" := by
  simp only [_flatten_packages_map, List.mem_flatMap] at h
  obtain ⟨entry, _, ho⟩ := h
  revert ho
  cases entry.2 <;> simp
  intro h2
  rcases h2 with he | ⟨a, a1, b, hd, he⟩
  · rw [he]; simp
  · rw [← he]
    right
    simpa using iter_dependency_specs_tag (d := (a, a1, b)) hd

/-- Unfolding equation: the walk emits nothing for an empty tree. -/
theorem legacy_nil (parent_path : String) :
    _flatten_legacy_dependencies [] parent_path = [] :=
  _flatten_legacy_dependencies.eq_1 parent_path

/-- Unfolding equation of `_flatten_legacy_dependencies` on a non-empty
tree, with the dependent match of the definition replaced by a plain one. -/
theorem legacy_cons (dep_name : String) (dep_info : PyVal)
    (rest : List (String × PyVal)) (parent_path : String) :
    _flatten_legacy_dependencies ((dep_name, dep_info) :: rest) parent_path =
      (match dep_info with
       | .dict info =>
          let version :=
            let v := _normalize_spec_value (lookupKey "version" info)
            if v = "" then "unknown" else v
          let requiresOccs : List Occurrence :=
            match lookupKey "requires" info with
            | some (.dict reqs) =>
                reqs.map (fun kv =>
                  let v := _normalize_spec_value (some kv.2)
                  ⟨kv.1, if v = "" then "unknown" else v,
                    _compose_legacy_path parent_path dep_name, "dependency"⟩)
            | _ => []
          let nestedOccs : List Occurrence :=
            match lookupKey "dependencies" info with
            | some (.dict nested) =>
                _flatten_legacy_dependencies nested (_compose_legacy_path parent_path dep_name)
            | _ => []
          (⟨dep_name, version, _compose_legacy_path parent_path dep_name, "installed"⟩ : Occurrence)
            :: (requiresOccs ++ nestedOccs)
       | _ =>
          let v := _normalize_spec_value (some dep_info)
          [⟨dep_name, if v = "" then "unknown" else v,
            _compose_legacy_path parent_path dep_name, "dependency"⟩])
      ++ _flatten_legacy_dependencies rest parent_path := by
  conv_lhs => rw [_flatten_legacy_dependencies.eq_def]
  cases dep_info <;> dsimp only
  case dict info =>
    congr 1
    congr 2
    cases hq : lookupKey "dependencies" info with
    | none => rfl
    | some v => cases v <;> rfl

/-- Size-bounded helper for induction over the nested-generation walk. -/
theorem legacy_entry_type_aux :
    ∀ (n : Nat) (dependencies : List (String × PyVal)) (parent_path : String)
      (o : Occurrence),
      sizeOf dependencies ≤ n →
      o ∈ _flatten_legacy_dependencies dependencies parent_path →
      o.entry_type = "installed" ∨ o.entry_type = "dependency" := by
  intro n
  induction n with
  | zero =>
    intro deps parent_path o hle h
    have hpos : 0 < sizeOf deps := by
      cases deps with
      | nil => decide
      | cons hd tl => simp only [List.cons.sizeOf_spec]; omega
    omega
  | succ n ih =>
    intro deps parent_path o hle h
    match deps with
    | [] => rw [legacy_nil] at h; simp at h
    | (dep_name, dep_info) :: rest =>
      rw [legacy_cons] at h
      rcases List.mem_append.mp h with h1 | h2
      · revert h1
        cases hinfo : dep_info <;> simp
        case dict info =>
          intro h3
          rcases h3 with he | hreq | hnest
          · rw [he]; simp
          · revert hreq
            cases hr : lookupKey "requires" info with
            | none => simp
            | some v =>
              cases v <;> simp
              intro kv x hkv he
              rw [← he]
              simp
          · revert hnest
            cases hd2 : lookupKey "dependencies" info with
            | none => simp
            | some v =>
              cases v <;> try simp
              case dict nested =>
                intro hmem
                refine ih nested _ o ?_ hmem
                subst hinfo
                have h1 := sizeOf_lookupKey_lt hd2
                simp_arith at h1 hle ⊢
                omega
        case null => intro he; rw [he]; simp
        case bool b => intro he; rw [he]; simp
        case int m => intro he; rw [he]; simp
        case str s => intro he; rw [he]; simp
        case list xs => intro he; rw [he]; simp
        case obj r => intro he; rw [he]; simp
      · refine ih rest parent_path o ?_ h2
        simp_arith at hle ⊢
        omega

/-- Every occurrence emitted by the nested-generation walk is tagged
`installed` or `dependency`. -/
theorem legacy_entry_type {dependencies : List (String × PyVal)}
    {parent_path : String} {o : Occurrence}
    (h : o ∈ _flatten_legacy_dependencies dependencies parent_path) :
    o.entry_type = "installed" ∨ o.entry_type = "dependency" :=
  legacy_entry_type_aux (sizeOf dependencies) dependencies parent_path o le_rfl h

/-- Whether a Python value is a dict. -/
def PyVal.isDict : PyVal → Bool
  | .dict _ => true
  | _ => false

/-- The per-entry occurrences described by the amended claim C3: every
dict-valued entry — including the one with the empty root path key — yields
one `installed` occurrence for its own installation path (`"."` for the
empty key), followed by one occurrence per listed dependency name/spec pair
carrying the parent's installation path and the dependency-kind tag.  No
entry is skipped and no `root` occurrence is produced. -/
def packagesEntrySpec (package_path : String) (info : List (String × PyVal)) : List Occurrence :=
  let path := if package_path = "" then "." else package_path
  ⟨_derive_package_name package_path info,
    (let v := _normalize_spec_value (lookupKey "version" info)
     if v = "" then "unknown" else v),
    path, "installed"⟩ ::
    (_iter_dependency_specs info).map
      (fun d => ⟨d.1, if d.2.1 = "" then "unknown" else d.2.1, path, d.2.2⟩)

/-- C3 counterexample: the entry with the empty path key is *not* skipped
and is *not* recorded with entryType `root`: flattening a packages map whose
only entry is the named root yields exactly one `installed` occurrence with
path `"."`. -/
theorem C3_counterexample :
    flatten_package_lock_content
        [("packages", .dict [("", .dict [("name", .str "demo"), ("version", .str "1.0.0")])])] =
      [⟨"demo", "1.0.0", ".", "installed"⟩] ∧
    "installed" ≠ "root" := by
  exact ⟨rfl, by decide⟩

/-- C3 (amended): when flattening a flat-generation lock document, the entry
with the empty path key is treated like every other entry: it emits one
`installed` occurrence whose path is `"."` (it is not skipped, and no
occurrence of entryType `root` is ever produced by the packages-map
flattener); every dict-valued entry emits exactly one `installed`
occurrence for its own path plus one occurrence per listed dependency
name/spec pair whose path is the parent's installation path. -/
theorem C3_theorem :
    (∀ packages : List (String × PyVal),
        _flatten_packages_map packages =
          packages.flatMap (fun entry =>
            match entry.2 with
            | .dict info => packagesEntrySpec entry.1 info
            | _ => [])) ∧
      (∀ (packages : List (String × PyVal)) (o : Occurrence),
          o ∈ _flatten_packages_map packages → o.entry_type ≠ "root") ∧
      (∀ packages : List (String × PyVal),
          ((_flatten_packages_map packages).filter
              (fun o => o.entry_type == "installed")).length =
            (packages.filter (fun entry => entry.2.isDict)).length) ∧
      _flatten_packages_map
          [("", .dict [("name", .str "demo"), ("version", .str "1.0.0"),
            ("dependencies", .dict [("left-pad", .str "^1.3.0")])])] =
        [⟨"demo", "1.0.0", ".", "installed"⟩,
         ⟨"left-pad", "^1.3.0", ".", "dependency"⟩] := by
  refine ⟨fun packages => rfl, ?_, ?_, rfl⟩
  · intro packages o h
    rcases packages_map_entry_type h with h1 | h1 | h1 | h1 | h1 <;> simp [h1]
  · intro packages
    induction packages with
    | nil => rfl
    | cons hd tl ih =>
      have hsplit : _flatten_packages_map (hd :: tl) =
          _flatten_packages_map [hd] ++ _flatten_packages_map tl := by
        simp [_flatten_packages_map]
      rw [hsplit, List.filter_append, List.length_append, ih, List.filter_cons]
      cases hv : hd.2 <;> simp [_flatten_packages_map, PyVal.isDict, hv]
      case dict info =>
        rw [List.filter_eq_nil_iff.mpr]
        · simp
          omega
        · intro o ho
          obtain ⟨d, hd2, he⟩ := List.mem_map.mp ho
          rw [← he]
          rcases iter_dependency_specs_tag hd2 with h1 | h1 | h1 | h1 <;> simp [h1]

/-- Witness for C3: the no-root part instantiated at the root-key entry of a
concrete packages map. -/
theorem C3_witness :
    (⟨"demo", "1.0.0", ".", "installed"⟩ : Occurrence).entry_type ≠ "root" :=
  C3_theorem.2.1 [("", .dict [("name", .str "demo"), ("version", .str "1.0.0")])]
    ⟨"demo", "1.0.0", ".", "installed"⟩ (by exact List.mem_singleton.mpr rfl)

/-- C4 counterexample: a flattened peer dependency carries entryType
`peer`, which is not a member of the set named by the claim. -/
theorem C4_counterexample :
    (⟨"bar", "^3.0.0", "node_modules/foo", "peer"⟩ : Occurrence)
        ∈ flatten_package_lock_content
          [("packages", .dict [("node_modules/foo", .dict [("version", .str "2.0.0"),
            ("peerDependencies", .dict [("bar", .str "^3.0.0")])])])] ∧
      "peer" ∉ (["installed", "dependency", "devDependency", "peerDependency",
        "optionalDependency", "root"] : List String) := by
  constructor
  · rw [show flatten_package_lock_content
        [("packages", .dict [("node_modules/foo", .dict [("version", .str "2.0.0"),
          ("peerDependencies", .dict [("bar", .str "^3.0.0")])])])] =
        [⟨"foo", "2.0.0", "node_modules/foo", "installed"⟩,
         ⟨"bar", "^3.0.0", "node_modules/foo", "peer"⟩] from rfl]
    decide
  · decide

/-- C4 (amended): every occurrence produced by flattening any lock document
(either schema generation) has an entryType in
`{installed, dependency, dev, peer, optional, root}` — the source tags the
three non-plain dependency kinds `dev`, `peer` and `optional`, not
`devDependency`, `peerDependency`, `optionalDependency`. -/
theorem C4_theorem :
    ∀ (lock_content : List (String × PyVal)) (o : Occurrence),
      o ∈ flatten_package_lock_content lock_content →
      o.entry_type ∈
        (["installed", "dependency", "dev", "peer", "optional", "root"] : List String) := by
  intro lock_content o h
  rw [flatten_package_lock_content, mem_dedupOccurrences] at h
  have hflat := h.1
  have hlegacy : ∀ lc : List (String × PyVal),
      o ∈ flatten_package_lock_content.legacyBranch lc →
      o.entry_type ∈
        (["installed", "dependency", "dev", "peer", "optional", "root"] : List String) := by
    intro lc hmem
    rw [flatten_package_lock_content.legacyBranch] at hmem
    revert hmem
    cases hdep : lookupKey "dependencies" lc with
    | none => simp
    | some v =>
      cases v <;> try simp
      case dict dependencies =>
        intro hmem
        rcases hmem with hroot | hwalk
        · revert hroot
          cases hname : lookupKey "name" lc with
          | none => simp
          | some w =>
            cases w <;> try simp
            case str root_name =>
              by_cases hrn : root_name = ""
              · simp [hrn]
              · simp [hrn]
                rintro rfl
                simp
        · rcases legacy_entry_type hwalk with h1 | h1 <;> simp [h1]
  revert hflat
  cases hpk : lookupKey "packages" lock_content with
  | none => exact fun hflat => hlegacy _ hflat
  | some v =>
    cases v <;> try exact fun hflat => hlegacy _ hflat
    case dict packages =>
      dsimp only
      by_cases hemp : packages.isEmpty
      · rw [if_pos hemp]; exact fun hflat => hlegacy _ hflat
      · rw [if_neg hemp]
        intro hflat
        rcases packages_map_entry_type hflat with h1 | h1 | h1 | h1 | h1 <;> simp [h1]

/-- Witness for C4: the amended invariant at a concrete flattened peer
dependency. -/
theorem C4_witness :
    (⟨"bar", "^3.0.0", "node_modules/foo", "peer"⟩ : Occurrence).entry_type ∈
      (["installed", "dependency", "dev", "peer", "optional", "root"] : List String) :=
  C4_theorem
    [("packages", .dict [("node_modules/foo", .dict [("version", .str "2.0.0"),
      ("peerDependencies", .dict [("bar", .str "^3.0.0")])])])]
    ⟨"bar", "^3.0.0", "node_modules/foo", "peer"⟩
    (by rw [show flatten_package_lock_content
        [("packages", .dict [("node_modules/foo", .dict [("version", .str "2.0.0"),
          ("peerDependencies", .dict [("bar", .str "^3.0.0")])])])] =
        [⟨"foo", "2.0.0", "node_modules/foo", "installed"⟩,
         ⟨"bar", "^3.0.0", "node_modules/foo", "peer"⟩] from rfl]
        decide)

/-- C6: flattening a nested-generation lock document with package `P`
installed at the root level, at depth 1 under `Q` and at depth 2 under `Q/R`
yields exactly three distinct `installed` occurrences for `P`, one per
installation path; and the deduplication step removes only exact duplicates
of the `(name, version, path, entry_type)` tuple — membership is preserved
in both directions and never merged by name alone. -/
theorem C6_theorem :
    (flatten_package_lock_content
        [("dependencies", .dict
          [("P", .dict [("version", .str "1.0.0")]),
           ("Q", .dict [("version", .str "1.0.0"),
             ("dependencies", .dict
               [("P", .dict [("version", .str "2.0.0")]),
                ("R", .dict [("version", .str "1.0.0"),
                  ("dependencies", .dict
                    [("P", .dict [("version", .str "3.0.0")])])])])])])]).filter
        (fun o => o.name == "P" && o.entry_type == "installed") =
      [⟨"P", "1.0.0", "node_modules/P", "installed"⟩,
       ⟨"P", "2.0.0", "node_modules/Q/node_modules/P", "installed"⟩,
       ⟨"P", "3.0.0", "node_modules/Q/node_modules/R/node_modules/P", "installed"⟩] ∧
      (∀ (l : List Occurrence) (o : Occurrence),
        o ∈ dedupOccurrences [] l ↔ o ∈ l) ∧
      (∀ l : List Occurrence, (dedupOccurrences [] l).Nodup) := by
  refine ⟨?_, fun l o => ?_, fun l => dedupOccurrences_nodup [] l⟩
  · have hconc : flatten_package_lock_content
        [("dependencies", .dict
          [("P", .dict [("version", .str "1.0.0")]),
           ("Q", .dict [("version", .str "1.0.0"),
             ("dependencies", .dict
               [("P", .dict [("version", .str "2.0.0")]),
                ("R", .dict [("version", .str "1.0.0"),
                  ("dependencies", .dict
                    [("P", .dict [("version", .str "3.0.0")])])])])])])] =
      [⟨"P", "1.0.0", "node_modules/P", "installed"⟩,
       ⟨"Q", "1.0.0", "node_modules/Q", "installed"⟩,
       ⟨"P", "2.0.0", "node_modules/Q/node_modules/P", "installed"⟩,
       ⟨"R", "1.0.0", "node_modules/Q/node_modules/R", "installed"⟩,
       ⟨"P", "3.0.0", "node_modules/Q/node_modules/R/node_modules/P", "installed"⟩] := by
      simp [flatten_package_lock_content, flatten_package_lock_content.legacyBranch,
        lookupKey, legacy_cons, legacy_nil, _compose_legacy_path, _normalize_spec_value,
        pyStr, dedupOccurrences]
    rw [hconc]
    decide
  · rw [mem_dedupOccurrences]
    simp

/-- C10: when the `packages` key of a lock document holds a non-empty map,
flattening derives occurrences exclusively from that map — the result is
exactly the deduplicated flat-generation flattening of the map, ignoring any
top-level `dependencies` tree and the root `name`/`version` fields — and no
occurrence of entryType `root` is produced. -/
theorem C10_theorem :
    ∀ (lock_content : List (String × PyVal)) (packages : List (String × PyVal)),
      lookupKey "packages" lock_content = some (.dict packages) →
      packages ≠ [] →
      flatten_package_lock_content lock_content =
          dedupOccurrences [] (_flatten_packages_map packages) ∧
        ∀ o ∈ flatten_package_lock_content lock_content, o.entry_type ≠ "root" := by
  intro lock_content packages hlook hne
  have hemp : packages.isEmpty = false := by
    cases packages with
    | nil => exact absurd rfl hne
    | cons hd tl => rfl
  have heq : flatten_package_lock_content lock_content =
      dedupOccurrences [] (_flatten_packages_map packages) := by
    rw [flatten_package_lock_content, hlook]
    simp [hemp]
  refine ⟨heq, ?_⟩
  intro o ho
  rw [heq, mem_dedupOccurrences] at ho
  rcases packages_map_entry_type ho.1 with h1 | h1 | h1 | h1 | h1 <;> simp [h1]

/-- Witness for C10: a `lockfileVersion 2` document carrying both schema
generations and a root name is flattened exclusively from its `packages`
map, with no `root` occurrence. -/
theorem C10_witness :
    flatten_package_lock_content
        [("name", .str "demo"), ("version", .str "1.0.0"), ("lockfileVersion", .int 2),
         ("packages", .dict
           [("", .dict [("name", .str "demo"), ("version", .str "1.0.0"),
              ("dependencies", .dict [("left-pad", .str "^1.3.0")])]),
            ("node_modules/left-pad", .dict [("version", .str "1.3.0")])]),
         ("dependencies", .dict
           [("left-pad", .dict [("version", .str "1.3.0")])])] =
        dedupOccurrences []
          (_flatten_packages_map
            [("", .dict [("name", .str "demo"), ("version", .str "1.0.0"),
               ("dependencies", .dict [("left-pad", .str "^1.3.0")])]),
             ("node_modules/left-pad", .dict [("version", .str "1.3.0")])]) ∧
      ∀ o ∈ flatten_package_lock_content
        [("name", .str "demo"), ("version", .str "1.0.0"), ("lockfileVersion", .int 2),
         ("packages", .dict
           [("", .dict [("name", .str "demo"), ("version", .str "1.0.0"),
              ("dependencies", .dict [("left-pad", .str "^1.3.0")])]),
            ("node_modules/left-pad", .dict [("version", .str "1.3.0")])]),
         ("dependencies", .dict
           [("left-pad", .dict [("version", .str "1.3.0")])])], o.entry_type ≠ "root" :=
  C10_theorem _ _ rfl (by exact List.cons_ne_nil _ _)

/-! ## cache_utils.py: the Signature Service and the Index Store

`signature_for_json` serialises the document with
`json.dumps(document, sort_keys=True, separators=(",", ":"))` — falling back
to `json.dumps(..., default=str, ...)` when serialisation raises — and
hashes the UTF-8 payload with SHA-256.  The `json` and `hashlib` libraries
are external collaborators: `json.dumps` is modelled at its documented
interface (canonical key-sorted, compact, ASCII-escaped serialisation that
fails exactly on non-serialisable values), and SHA-256 is implemented from
the standard. -/

/-- The lowercase hex digit of `n` (for `n < 16`). -/
def hexDigitChar (n : Nat) : Char :=
  if n < 10 then Char.ofNat (48 + n) else Char.ofNat (87 + n)

/-- Truncation to a 32-bit word. -/
def w32 (n : Nat) : Nat := n % 4294967296

/-- Right rotation of a 32-bit word by `n` bits. -/
def rotr32 (n x : Nat) : Nat := x / 2 ^ n + x % 2 ^ n * 2 ^ (32 - n)

/-- UTF-8 encoding of one character. -/
def utf8EncodeChar (c : Char) : List Nat :=
  let n := c.toNat
  if n < 128 then [n]
  else if n < 2048 then [192 + n / 64, 128 + n % 64]
  else if n < 65536 then [224 + n / 4096, 128 + n / 64 % 64, 128 + n % 64]
  else [240 + n / 262144, 128 + n / 4096 % 64, 128 + n / 64 % 64, 128 + n % 64]

/-- UTF-8 encoding of a string, as `payload.encode("utf-8")`. -/
def utf8Encode (s : String) : List Nat := s.toList.flatMap utf8EncodeChar

/-- The SHA-256 round constants. -/
def sha256K : List Nat :=
  [1116352408, 1899447441, 3049323471, 3921009573, 961987163,
   1508970993, 2453635748, 2870763221, 3624381080, 310598401,
   607225278, 1426881987, 1925078388, 2162078206, 2614888103,
   3248222580, 3835390401, 4022224774, 264347078, 604807628,
   770255983, 1249150122, 1555081692, 1996064986, 2554220882,
   2821834349, 2952996808, 3210313671, 3336571891, 3584528711,
   113926993, 338241895, 666307205, 773529912, 1294757372,
   1396182291, 1695183700, 1986661051, 2177026350, 2456956037,
   2730485921, 2820302411, 3259730800, 3345764771, 3516065817,
   3600352804, 4094571909, 275423344, 430227734, 506948616,
   659060556, 883997877, 958139571, 1322822218, 1537002063,
   1747873779, 1955562222, 2024104815, 2227730452, 2361852424,
   2428436474, 2756734187, 3204031479, 3329325298]

/-- The SHA-256 working state: eight 32-bit words. -/
structure Hash8 where
  h0 : Nat
  h1 : Nat
  h2 : Nat
  h3 : Nat
  h4 : Nat
  h5 : Nat
  h6 : Nat
  h7 : Nat
deriving Repr

/-- The SHA-256 initial hash value. -/
def sha256Init : Hash8 :=
  ⟨1779033703, 3144134277, 1013904242, 2773480762,
   1359893119, 2600822924, 528734635, 1541459225⟩

/-- `k` bytes of `n`, big-endian. -/
def beBytes : Nat → Nat → List Nat
  | 0, _ => []
  | k + 1, n => beBytes k (n / 256) ++ [n % 256]

/-- SHA-256 message padding: `0x80`, zeros up to 56 mod 64, then the bit
length as eight big-endian bytes. -/
def padMessage (msg : List Nat) : List Nat :=
  let len := msg.length
  msg ++ [128] ++ List.replicate ((119 - len % 64) % 64) 0 ++ beBytes 8 (8 * len)

/-- Big-endian 32-bit words from a byte stream. -/
def bytesToWords : List Nat → List Nat
  | b1 :: b2 :: b3 :: b4 :: rest =>
      (((b1 * 256 + b2) * 256 + b3) * 256 + b4) :: bytesToWords rest
  | _ => []

/-- Split a word stream into 16-word blocks. -/
def chunks16 : List Nat → List (List Nat)
  | [] => []
  | w :: rest => ((w :: rest).take 16) :: chunks16 ((w :: rest).drop 16)
termination_by ws => ws.length
decreasing_by simp; omega

/-- σ₀ of the SHA-256 message schedule. -/
def smallSigma0 (x : Nat) : Nat := rotr32 7 x ^^^ rotr32 18 x ^^^ x / 2 ^ 3

/-- σ₁ of the SHA-256 message schedule. -/
def smallSigma1 (x : Nat) : Nat := rotr32 17 x ^^^ rotr32 19 x ^^^ x / 2 ^ 10

/-- Σ₀ of the SHA-256 compression function. -/
def bigSigma0 (x : Nat) : Nat := rotr32 2 x ^^^ rotr32 13 x ^^^ rotr32 22 x

/-- Σ₁ of the SHA-256 compression function. -/
def bigSigma1 (x : Nat) : Nat := rotr32 6 x ^^^ rotr32 11 x ^^^ rotr32 25 x

/-- Extend the message schedule by `k` further words. -/
def extendWords (w : List Nat) : Nat → List Nat
  | 0 => w
  | k + 1 =>
      let i := w.length
      let nw := w32 (smallSigma1 (w.getD (i - 2) 0) + w.getD (i - 7) 0 +
        smallSigma0 (w.getD (i - 15) 0) + w.getD (i - 16) 0)
      extendWords (w ++ [nw]) k

/-- One SHA-256 compression round for round constant `k` and schedule word
`w`. -/
def compressRound (st : Hash8) (kw : Nat × Nat) : Hash8 :=
  let s1 := bigSigma1 st.h4
  let ch := (st.h4 &&& st.h5) ^^^ ((st.h4 ^^^ 4294967295) &&& st.h6)
  let temp1 := w32 (st.h7 + s1 + ch + kw.1 + kw.2)
  let s0 := bigSigma0 st.h0
  let maj := (st.h0 &&& st.h1) ^^^ (st.h0 &&& st.h2) ^^^ (st.h1 &&& st.h2)
  let temp2 := w32 (s0 + maj)
  ⟨w32 (temp1 + temp2), st.h0, st.h1, st.h2, w32 (st.h3 + temp1), st.h4, st.h5, st.h6⟩

/-- Process one 16-word block. -/
def processBlock (hs : Hash8) (block : List Nat) : Hash8 :=
  let w := extendWords block 48
  let st := (List.zip sha256K w).foldl compressRound hs
  ⟨w32 (hs.h0 + st.h0), w32 (hs.h1 + st.h1), w32 (hs.h2 + st.h2), w32 (hs.h3 + st.h3),
   w32 (hs.h4 + st.h4), w32 (hs.h5 + st.h5), w32 (hs.h6 + st.h6), w32 (hs.h7 + st.h7)⟩

/-- The eight digest words of a byte message. -/
def sha256Words (msg : List Nat) : List Nat :=
  let hs := (chunks16 (bytesToWords (padMessage msg))).foldl processBlock sha256Init
  [hs.h0, hs.h1, hs.h2, hs.h3, hs.h4, hs.h5, hs.h6, hs.h7]

/-- The eight lowercase hex digits of a 32-bit word. -/
def wordHexChars (w : Nat) : List Char :=
  [hexDigitChar (w / 16 ^ 7 % 16), hexDigitChar (w / 16 ^ 6 % 16),
   hexDigitChar (w / 16 ^ 5 % 16), hexDigitChar (w / 16 ^ 4 % 16),
   hexDigitChar (w / 16 ^ 3 % 16), hexDigitChar (w / 16 ^ 2 % 16),
   hexDigitChar (w / 16 % 16), hexDigitChar (w % 16)]

/-- `hashlib.sha256(payload).hexdigest()`. -/
def sha256hex (msg : List Nat) : String :=
  String.mk ((sha256Words msg).flatMap wordHexChars)

/-- The JSON `\uXXXX` escape of a code unit below `0x10000`. -/
def uEscape (n : Nat) : List Char :=
  [Char.ofNat 92, Char.ofNat 117, hexDigitChar (n / 4096 % 16), hexDigitChar (n / 256 % 16),
   hexDigitChar (n / 16 % 16), hexDigitChar (n % 16)]

/-- The JSON escape of one character under the default `ensure_ascii=True`
encoder: short escapes for the two delimiters and the five named controls,
`\uXXXX` for other controls and all non-ASCII characters (surrogate pairs
above the BMP), the character itself otherwise. -/
def jsonEscapeChar (c : Char) : List Char :=
  let n := c.toNat
  if n = 34 then [Char.ofNat 92, Char.ofNat 34]
  else if n = 92 then [Char.ofNat 92, Char.ofNat 92]
  else if n = 10 then [Char.ofNat 92, Char.ofNat 110]
  else if n = 13 then [Char.ofNat 92, Char.ofNat 114]
  else if n = 9 then [Char.ofNat 92, Char.ofNat 116]
  else if n = 8 then [Char.ofNat 92, Char.ofNat 98]
  else if n = 12 then [Char.ofNat 92, Char.ofNat 102]
  else if n < 32 then uEscape n
  else if n < 127 then [c]
  else if n < 65536 then uEscape n
  else uEscape (55296 + (n - 65536) / 1024) ++ uEscape (56320 + (n - 65536) % 1024)

/-- A JSON string literal. -/
def dumpJsonString (s : String) : String :=
  String.mk (Char.ofNat 34 :: s.toList.flatMap jsonEscapeChar ++ [Char.ofNat 34])

/-- Sorting of the items of a dict by key, as `sorted(dct.items())` under
`sort_keys=True` (keys are unique, so the comparison never reaches the
values). -/
def sortKvs (kvs : List (String × PyVal)) : List (String × PyVal) :=
  kvs.insertionSort (fun a b => a.1 ≤ b.1)

/-- Whether the document contains a value that is not JSON-serialisable. -/
def containsObj : PyVal → Bool
  | .obj _ => true
  | .list xs => xs.attach.any (fun x => containsObj x.1)
  | .dict kvs => kvs.attach.any (fun kv => containsObj kv.1.2)
  | _ => false
termination_by v => sizeOf v
decreasing_by
  · have := List.sizeOf_lt_of_mem x.2
    simp_arith
    omega
  · have := List.sizeOf_lt_of_mem kv.2
    cases h : kv.1 with
    | mk a b => rw [h] at this; simp_arith at this ⊢; omega

/-- Modelled from the spec: the canonical serialisation produced by the
external `json.dumps(document, sort_keys=True, separators=(",", ":"))` —
compact separators, recursively key-sorted maps — where a non-serialisable
value is rendered via `default=str`, i.e. as the JSON string of its `str()`
rendering.  (Floats do not occur in the audited documents and are outside
the model.) -/
def dumpsCanonical : PyVal → String
  | .null => "null"
  | .bool b => if b then "true" else "false"
  | .int n => toString n
  | .str s => dumpJsonString s
  | .obj rendered => dumpJsonString rendered
  | .list xs =>
      "[" ++ String.intercalate "," (xs.attach.map (fun x => dumpsCanonical x.1)) ++ "]"
  | .dict kvs =>
      "\x7b" ++ String.intercalate ","
        ((sortKvs kvs).attach.map
          (fun kv => dumpJsonString kv.1.1 ++ ":" ++ dumpsCanonical kv.1.2)) ++ "\x7d"
termination_by v => sizeOf v
decreasing_by
  · have := List.sizeOf_lt_of_mem x.2
    simp_arith
    omega
  · have hmem : kv.1 ∈ kvs := (List.perm_insertionSort _ kvs).mem_iff.mp kv.2
    have := List.sizeOf_lt_of_mem hmem
    cases h : kv.1 with
    | mk a b => rw [h] at this; simp_arith at this ⊢; omega

/-- Modelled from the spec: `json.dumps(document, sort_keys=True,
separators=(",", ":"))` *without* `default` raises `TypeError` exactly when
the document holds a non-serialisable value, and otherwise returns the
canonical serialisation. -/
def dumpsStrict (document : PyVal) : Option String :=
  if containsObj document then none else some (dumpsCanonical document)

/-- `signature_for_json` of cache_utils: serialise (falling back to
`default=str` when serialisation fails), UTF-8-encode and hash. -/
def signature_for_json (document : PyVal) : String :=
  let payload :=
    match dumpsStrict document with
    | some payload => payload
    | none => dumpsCanonical document
  sha256hex (utf8Encode payload)

/-- Duplicate-free keys, recursively decidable. -/
def nodupKeys : List (String × PyVal) → Bool
  | [] => true
  | (k, _) :: rest => (lookupKey k rest).isNone && nodupKeys rest

mutual

/-- Equality of documents as nested maps/lists/scalars up to the ordering of
map keys: scalars must agree, lists must agree pointwise, and maps (with
duplicate-free keys, as Python dicts are) must have the same size and give
equivalent values to every key of the first. -/
def jequiv : PyVal → PyVal → Bool
  | .null, .null => true
  | .bool a, .bool b => a == b
  | .int a, .int b => a == b
  | .str a, .str b => a == b
  | .obj a, .obj b => a == b
  | .list xs, .list ys => jequivList xs ys
  | .dict k1, .dict k2 =>
      nodupKeys k1 && nodupKeys k2 && k1.length == k2.length && jequivDict k1 k2
  | _, _ => false
termination_by p _ => (sizeOf p, 1)

/-- Pointwise equivalence of lists. -/
def jequivList : List PyVal → List PyVal → Bool
  | [], [] => true
  | x :: xs, y :: ys => jequiv x y && jequivList xs ys
  | _, _ => false
termination_by l _ => (sizeOf l, 0)

/-- Every key of the first map is bound, in the second, to an equivalent
value. -/
def jequivDict : List (String × PyVal) → List (String × PyVal) → Bool
  | [], _ => true
  | (k, v) :: rest, k2 =>
      (match lookupKey k k2 with
       | some w => jequiv v w
       | none => false) && jequivDict rest k2
termination_by l _ => (sizeOf l, 0)

end

/-! ## cache_utils.py: load_index -/

/-- The observable state of an index file: absent, present but unreadable
(an `OSError` on open/read), or readable with a parse outcome (`none` for
malformed JSON). -/
inductive IndexFileState where
  | missing : IndexFileState
  | unreadable : IndexFileState
  | fileContent (parsed : Option PyVal) : IndexFileState

/-- `load_index` of cache_utils over an abstract filesystem (modelled from
the spec at the filesystem interface): a missing file yields the empty
table, `json.JSONDecodeError` is caught and yields the empty table, but an
existing file that cannot be read raises — only the decode error is inside
the `try`. -/
def load_index (fs : String → IndexFileState) (name : String) : Except String PyVal :=
  match fs name with
  | .missing => .ok (.dict [])
  | .unreadable => .error "OSError"
  | .fileContent none => .ok (.dict [])
  | .fileContent (some doc) => .ok doc

/-! ## Determinism of the signature under key reordering -/

/-- A key is absent exactly when it is not among the mapped keys. -/
theorem lookupKey_eq_none {α : Type} (k : String) (l : List (String × α)) :
    lookupKey k l = none ↔ k ∉ l.map Prod.fst := by
  induction l with
  | nil => simp [lookupKey]
  | cons hd tl ih =>
    simp only [lookupKey, List.map_cons, List.mem_cons]
    by_cases hk : k = hd.1
    · simp [hk]
    · simp [hk, ih]

/-- A successful lookup is a membership. -/
theorem mem_of_lookupKey {α : Type} {k : String} {l : List (String × α)} {w : α}
    (h : lookupKey k l = some w) : (k, w) ∈ l := by
  induction l with
  | nil => simp [lookupKey] at h
  | cons hd tl ih =>
    simp only [lookupKey] at h
    by_cases hk : k = hd.1
    · rw [if_pos hk] at h
      have heq : hd = (k, w) := by
        cases hd
        simp at h hk
        simp [hk, h]
      rw [← heq]
      exact List.mem_cons_self _ _
    · rw [if_neg hk] at h
      exact List.mem_cons_of_mem _ (ih h)

/-- `nodupKeys` decides duplicate-freeness of the mapped keys. -/
theorem nodupKeys_nodup : ∀ {kvs : List (String × PyVal)},
    nodupKeys kvs = true → (kvs.map Prod.fst).Nodup := by
  intro kvs
  induction kvs with
  | nil => intro _; simp
  | cons hd tl ih =>
    intro h
    rcases hd with ⟨k, v⟩
    simp only [nodupKeys, Bool.and_eq_true, Option.isNone_iff_eq_none] at h
    simp only [List.map_cons, List.nodup_cons]
    exact ⟨(lookupKey_eq_none k tl).mp h.1, ih h.2⟩

/-- The semantics of `jequivDict`: every binding of the first map has an
equivalent binding in the second. -/
theorem jequivDict_spec : ∀ {k1 k2 : List (String × PyVal)},
    jequivDict k1 k2 = true →
    ∀ kv ∈ k1, ∃ w, lookupKey kv.1 k2 = some w ∧ jequiv kv.2 w = true := by
  intro k1
  induction k1 with
  | nil => intro k2 _ kv hkv; simp at hkv
  | cons hd tl ih =>
    intro k2 h kv hkv
    rcases hd with ⟨k, v⟩
    rw [jequivDict] at h
    rw [Bool.and_eq_true] at h
    rcases List.mem_cons.mp hkv with rfl | hmem
    · revert h
      cases hl : lookupKey k k2 with
      | none => intro h; exact absurd h.1 (by simp)
      | some w => intro h; exact ⟨w, rfl, h.1⟩
    · exact ih h.2 kv hmem

/-- Unfolding: serialisation of a list. -/
theorem dumpsCanonical_list (xs : List PyVal) :
    dumpsCanonical (.list xs) =
      "[" ++ String.intercalate "," (xs.map dumpsCanonical) ++ "]" := by
  rw [dumpsCanonical]
  rw [List.attach_map_val xs dumpsCanonical]

/-- Unfolding: serialisation of a dict iterates over the key-sorted items. -/
theorem dumpsCanonical_dict (kvs : List (String × PyVal)) :
    dumpsCanonical (.dict kvs) =
      "\x7b" ++ String.intercalate ","
        ((sortKvs kvs).map (fun kv => dumpJsonString kv.1 ++ ":" ++ dumpsCanonical kv.2)) ++
      "\x7d" := by
  rw [dumpsCanonical]
  rw [List.attach_map_val (sortKvs kvs) (fun kv => dumpJsonString kv.1 ++ ":" ++ dumpsCanonical kv.2)]

/-- A member of a list value is smaller than the value. -/
theorem sizeOf_mem_list_lt {x : PyVal} {xs : List PyVal} (h : x ∈ xs) :
    sizeOf x < sizeOf (PyVal.list xs) := by
  have := List.sizeOf_lt_of_mem h
  simp_arith
  omega

/-- A value bound in a dict value is smaller than the value. -/
theorem sizeOf_mem_dict_lt {kv : String × PyVal} {kvs : List (String × PyVal)}
    (h : kv ∈ kvs) : sizeOf kv.2 < sizeOf (PyVal.dict kvs) := by
  have := List.sizeOf_lt_of_mem h
  cases hkv : kv with
  | mk k v => rw [hkv] at this; simp_arith at this ⊢; omega

/-- Pointwise-equivalent lists serialise pointwise equally (given the
induction hypothesis for their elements). -/
theorem map_dumps_eq_of_jequivList (n : Nat)
    (ih : ∀ p q : PyVal, sizeOf p ≤ n → jequiv p q = true →
      dumpsCanonical p = dumpsCanonical q) :
    ∀ xs ys : List PyVal, (∀ x ∈ xs, sizeOf x ≤ n) → jequivList xs ys = true →
      xs.map dumpsCanonical = ys.map dumpsCanonical := by
  intro xs
  induction xs with
  | nil =>
    intro ys hsz hj
    cases ys with
    | nil => rfl
    | cons y ys => rw [jequivList.eq_def] at hj; simp at hj
  | cons x xs ihl =>
    intro ys hsz hj
    cases ys with
    | nil => rw [jequivList.eq_def] at hj; simp at hj
    | cons y ys =>
      rw [jequivList, Bool.and_eq_true] at hj
      simp only [List.map_cons]
      rw [ih x y (hsz x (by simp)) hj.1,
        ihl ys (fun z hz => hsz z (by simp [hz])) hj.2]

/-- Key-equivalent maps serialise their sorted items equally (given the
induction hypothesis for the bound values): the sorted serialised item lists
are permutations of one another, both strictly sorted by key, hence
equal. -/
theorem map_dumps_eq_of_jequivDict (n : Nat)
    (ih : ∀ p q : PyVal, sizeOf p ≤ n → jequiv p q = true →
      dumpsCanonical p = dumpsCanonical q)
    (k1 k2 : List (String × PyVal))
    (hsz : ∀ kv ∈ k1, sizeOf kv.2 ≤ n)
    (hn1 : (k1.map Prod.fst).Nodup) (hn2 : (k2.map Prod.fst).Nodup)
    (hlen : k1.length = k2.length)
    (hjd : jequivDict k1 k2 = true) :
    (sortKvs k1).map (fun kv => dumpJsonString kv.1 ++ ":" ++ dumpsCanonical kv.2) =
      (sortKvs k2).map (fun kv => dumpJsonString kv.1 ++ ":" ++ dumpsCanonical kv.2) := by
  classical
  set f : String × PyVal → String × String := fun kv => (kv.1, dumpsCanonical kv.2) with hf
  set g : String × String → String := fun kv => dumpJsonString kv.1 ++ ":" ++ kv.2 with hg
  have hgf : (fun kv : String × PyVal => dumpJsonString kv.1 ++ ":" ++ dumpsCanonical kv.2) =
      g ∘ f := rfl
  rw [hgf, ← List.map_map, ← List.map_map]
  suffices hm : (sortKvs k1).map f = (sortKvs k2).map f by rw [hm]
  -- the permutation
  have hp1 : ((sortKvs k1).map f).Perm (k1.map f) := ((k1.perm_insertionSort _).map f)
  have hp2 : ((sortKvs k2).map f).Perm (k2.map f) := ((k2.perm_insertionSort _).map f)
  have hsub : k1.map f ⊆ k2.map f := by
    intro a ha
    obtain ⟨kv, hkv, rfl⟩ := List.mem_map.mp ha
    obtain ⟨w, hw, hjw⟩ := jequivDict_spec hjd kv hkv
    have hdw : dumpsCanonical kv.2 = dumpsCanonical w := ih _ _ (hsz kv hkv) hjw
    refine List.mem_map.mpr ⟨(kv.1, w), mem_of_lookupKey hw, ?_⟩
    simp [hf, hdw]
  have hfst1 : (k1.map f).map Prod.fst = k1.map Prod.fst := by
    rw [List.map_map]; rfl
  have hnd1 : (k1.map f).Nodup := List.Nodup.of_map Prod.fst (hfst1 ▸ hn1)
  have hperm : (k1.map f).Perm (k2.map f) :=
    (hnd1.subperm hsub).perm_of_length_le (by simp [hlen])
  have hmm : ((sortKvs k1).map f).Perm ((sortKvs k2).map f) :=
    hp1.trans (hperm.trans hp2.symm)
  -- strict sortedness by key on both sides
  haveI i1 : IsTotal (String × PyVal) (fun a b => a.1 ≤ b.1) :=
    ⟨fun a b => le_total a.1 b.1⟩
  haveI i2 : IsTrans (String × PyVal) (fun a b => a.1 ≤ b.1) :=
    ⟨fun a b c hab hbc => le_trans hab hbc⟩
  have hstrict : ∀ (l : List (String × PyVal)), (l.map Prod.fst).Nodup →
      List.Pairwise (fun a b : String × String => a.1 < b.1) ((sortKvs l).map f) := by
    intro l hnd
    have hsorted : List.Pairwise (fun a b : String × PyVal => a.1 ≤ b.1) (sortKvs l) :=
      List.sorted_insertionSort _ l
    have hle : List.Pairwise (fun a b : String × String => a.1 ≤ b.1) ((sortKvs l).map f) :=
      (List.pairwise_map).mpr (hsorted.imp (fun h => h))
    have hfst : ((sortKvs l).map f).map Prod.fst = (sortKvs l).map Prod.fst := by
      rw [List.map_map]; rfl
    have hndSorted : ((sortKvs l).map Prod.fst).Nodup := by
      rw [sortKvs]
      exact (((List.perm_insertionSort (fun a b : String × PyVal => a.1 ≤ b.1) l).map
        Prod.fst).nodup_iff).mpr hnd
    have hne : List.Pairwise (fun a b : String × String => a.1 ≠ b.1) ((sortKvs l).map f) :=
      (List.pairwise_map).mp (hfst ▸ hndSorted)
    exact (hle.and hne).imp (fun h => lt_of_le_of_ne h.1 h.2)
  haveI : IsAntisymm (String × String) (fun a b => a.1 < b.1) :=
    ⟨fun a b h1 h2 => absurd h2 (lt_asymm h1)⟩
  exact List.eq_of_perm_of_sorted hmm (hstrict k1 hn1) (hstrict k2 hn2)

/-- Size-bounded main induction: equivalent documents serialise equally. -/
theorem dumpsCanonical_eq_of_jequiv_aux :
    ∀ (n : Nat) (p q : PyVal), sizeOf p ≤ n → jequiv p q = true →
      dumpsCanonical p = dumpsCanonical q := by
  intro n
  induction n with
  | zero =>
    intro p q hle hj
    have hpos : 0 < sizeOf p := by
      cases p <;> simp_arith
    omega
  | succ n ih =>
    intro p q hle hj
    cases p <;> cases q <;> rw [jequiv.eq_def] at hj <;> simp at hj
    case bool.bool a b => rw [hj]
    case int.int a b => rw [hj]
    case str.str a b => rw [hj]
    case obj.obj a b => rw [hj]
    case list.list xs ys =>
      rw [dumpsCanonical_list, dumpsCanonical_list]
      have hsz : ∀ x ∈ xs, sizeOf x ≤ n := by
        intro x hx
        have h1 := sizeOf_mem_list_lt hx
        simp_arith at h1 hle
        omega
      rw [map_dumps_eq_of_jequivList n ih xs ys hsz hj]
    case dict.dict k1 k2 =>
      obtain ⟨⟨⟨hnk1, hnk2⟩, hlen⟩, hjd⟩ := hj
      rw [dumpsCanonical_dict, dumpsCanonical_dict]
      have hsz : ∀ kv ∈ k1, sizeOf kv.2 ≤ n := by
        intro kv hkv
        have h1 := sizeOf_mem_dict_lt hkv
        simp_arith at h1 hle
        omega
      rw [map_dumps_eq_of_jequivDict n ih k1 k2 hsz
        (nodupKeys_nodup hnk1) (nodupKeys_nodup hnk2) hlen hjd]

/-- The signature always hashes the canonical serialisation, whichever
branch of the fallback is taken. -/
theorem signature_for_json_eq (document : PyVal) :
    signature_for_json document = sha256hex (utf8Encode (dumpsCanonical document)) := by
  rw [signature_for_json, dumpsStrict]
  by_cases hobj : containsObj document <;> simp [hobj]

/-- C7: the signature function is deterministic under key reordering: two
documents that are equal as nested maps/lists/scalars up to the ordering of
(duplicate-free) map keys receive the same hexadecimal digest. -/
theorem C7_theorem :
    ∀ p q : PyVal, jequiv p q = true → signature_for_json p = signature_for_json q := by
  intro p q hj
  rw [signature_for_json_eq, signature_for_json_eq,
    dumpsCanonical_eq_of_jequiv_aux (sizeOf p) p q le_rfl hj]

/-- Witness for C7: two concrete documents with identical nested content and
different key order receive the same signature. -/
theorem C7_witness :
    jequiv
        (.dict [("b", .int 1), ("a", .dict [("y", .str "x"), ("z", .null)])])
        (.dict [("a", .dict [("z", .null), ("y", .str "x")]), ("b", .int 1)]) = true ∧
      signature_for_json
          (.dict [("b", .int 1), ("a", .dict [("y", .str "x"), ("z", .null)])]) =
        signature_for_json
          (.dict [("a", .dict [("z", .null), ("y", .str "x")]), ("b", .int 1)]) :=
  have hj : jequiv
      (.dict [("b", .int 1), ("a", .dict [("y", .str "x"), ("z", .null)])])
      (.dict [("a", .dict [("z", .null), ("y", .str "x")]), ("b", .int 1)]) = true := by
    simp [jequiv, jequivList, jequivDict, nodupKeys, lookupKey]
  ⟨hj, C7_theorem _ _ hj⟩

/-- A lowercase hexadecimal character. -/
def isHexChar (c : Char) : Bool :=
  c.isDigit || (97 ≤ c.toNat && c.toNat ≤ 102)

/-- A hex digit rendered from any low nibble is a hex digit. -/
theorem hexDigitChar_mod_isHex (m : Nat) : isHexChar (hexDigitChar (m % 16)) = true := by
  have h16 : m % 16 < 16 := Nat.mod_lt _ (by omega)
  set r := m % 16 with hr
  interval_cases r <;> decide

/-- Eight hex characters per word. -/
theorem length_flatMap_wordHexChars (ws : List Nat) :
    (ws.flatMap wordHexChars).length = 8 * ws.length := by
  induction ws with
  | nil => rfl
  | cons w ws ih => simp [wordHexChars, ih]; omega

/-- Every rendered character is a hex digit. -/
theorem all_hex_flatMap (ws : List Nat) :
    (ws.flatMap wordHexChars).all isHexChar = true := by
  induction ws with
  | nil => rfl
  | cons w ws ih =>
    simp only [List.flatMap_cons, List.all_append, ih, Bool.and_true]
    simp [wordHexChars, hexDigitChar_mod_isHex]

/-- SHA-256 yields eight digest words. -/
theorem sha256Words_length (msg : List Nat) : (sha256Words msg).length = 8 := rfl

/-- C8: `signature_for_json` is total: for every document built from nested
maps/lists/scalars — including documents holding values that are not
JSON-serialisable — it returns a 64-character lowercase-hex digest; strict
serialisation fails exactly on such values, and the returned digest is the
hash of the canonical serialisation with the offending values coerced to
strings. -/
theorem C8_theorem :
    ∀ document : PyVal,
      (signature_for_json document).length = 64 ∧
      (signature_for_json document).toList.all isHexChar = true ∧
      (dumpsStrict document).isNone = containsObj document ∧
      signature_for_json document =
        sha256hex (utf8Encode (dumpsCanonical document)) := by
  intro document
  refine ⟨?_, ?_, ?_, signature_for_json_eq document⟩
  · rw [signature_for_json_eq, sha256hex]
    show ((sha256Words _).flatMap wordHexChars).length = 64
    rw [length_flatMap_wordHexChars, sha256Words_length]
  · rw [signature_for_json_eq, sha256hex]
    exact all_hex_flatMap _
  · rw [dumpsStrict]
    by_cases hobj : containsObj document <;> simp [hobj]

/-- C9 counterexample: an index file that exists but cannot be read makes
`load_index` raise the I/O error instead of returning the empty table — only
`json.JSONDecodeError` is caught. -/
theorem C9_counterexample :
    load_index (fun _ => IndexFileState.unreadable) "package_lock_repo_index.json" =
        Except.error "OSError" ∧
      ∀ t : PyVal,
        (Except.error "OSError" : Except String PyVal) ≠ Except.ok t :=
  ⟨rfl, fun _ h => Except.noConfusion h⟩

/-- C9 (amended): `load_index` returns the empty table when the index file
is missing or contains malformed JSON (and the parsed document otherwise),
and raises only when an existing file cannot be read — that I/O failure is
not caught. -/
theorem C9_theorem :
    ∀ (fs : String → IndexFileState) (name : String),
      (fs name = IndexFileState.missing →
        load_index fs name = Except.ok (PyVal.dict [])) ∧
      (fs name = IndexFileState.fileContent none →
        load_index fs name = Except.ok (PyVal.dict [])) ∧
      (∀ doc : PyVal, fs name = IndexFileState.fileContent (some doc) →
        load_index fs name = Except.ok doc) ∧
      (∀ e : String, load_index fs name = Except.error e →
        fs name = IndexFileState.unreadable) := by
  intro fs name
  refine ⟨fun h => by simp [load_index, h], fun h => by simp [load_index, h],
    fun doc h => by simp [load_index, h], fun e h => ?_⟩
  cases hfs : fs name with
  | missing => simp [load_index, hfs] at h
  | unreadable => rfl
  | fileContent p => cases p <;> simp [load_index, hfs] at h

/-- Witness for C9: a missing file and a malformed file both give the empty
table. -/
theorem C9_witness :
    load_index (fun _ => IndexFileState.missing) "package_lock_repo_index.json" =
        Except.ok (PyVal.dict []) ∧
      load_index (fun _ => IndexFileState.fileContent none) "package_lock_repo_index.json" =
        Except.ok (PyVal.dict []) :=
  ⟨(C9_theorem _ _).1 rfl, (C9_theorem _ _).2.1 rfl⟩

/-! ## step_03_get_package_lock.py: the lock fetch-or-generate orchestration

The network fetcher (`fetch_package_lock_from_repo`) and the npm invocation
(`generate_lock_with_npm`) are external collaborators, modelled as oracles:
`fetch item = some content` stands for a successful retrieval, `none` for a
404 or a caught request error (both fall through to generation in the
source); `generate content` is the package-manager fallback.  Filesystem
documents and JSON indices are modelled as keyed in-memory tables, and the
`events` field logs each external fetch/generate call in order (the source
only counts them and echoes a summary). -/

/-- Replace-or-append update of an association list, as Python dict
assignment. -/
def setKey {α : Type} (k : String) (v : α) : List (String × α) → List (String × α)
  | [] => [(k, v)]
  | (k2, w) :: rest => if k = k2 then (k, v) :: rest else (k2, w) :: setKey k v rest

/-- Insert-if-absent update of an association list, as Python
`dict.setdefault`. -/
def setDefaultKey {α : Type} (k : String) (v : α) (l : List (String × α)) :
    List (String × α) :=
  match lookupKey k l with
  | some _ => l
  | none => l ++ [(k, v)]

/-- One repository record as consumed by step_03: the fields read by
`build_repo_key` and `build_lock_repo_metadata` (branch is
`versions[0].branchName`, or `""` when absent). -/
structure RepoItem where
  repositoryId : String
  repositoryName : String
  projectName : String
  path : String
  branch : String
deriving DecidableEq, Repr

/-- `build_repo_key` of cache_utils. -/
def build_repo_key (item : RepoItem) : String :=
  item.repositoryId ++ "|" ++ item.branch ++ "|" ++ item.path

/-- A Lock Cache Entry of the lock manifest. -/
structure ManifestEntry where
  path : String
  repos : List String
  packageSignatures : List String
  sources : List String
deriving DecidableEq, Repr

/-- The per-repo metadata built by `build_lock_repo_metadata`. -/
structure LockRepoMeta where
  lockSignature : String
  packageSignature : String
  source : String
  repositoryId : String
  repositoryName : String
  project : String
  path : String
  branch : String
deriving DecidableEq, Repr

/-- `build_lock_repo_metadata` of step_03. -/
def build_lock_repo_metadata (item : RepoItem)
    (package_signature lock_signature source : String) : LockRepoMeta :=
  ⟨lock_signature, package_signature, source, item.repositoryId,
    item.repositoryName, item.projectName, item.path, item.branch⟩

/-- `sorted(set(l + [x]))`, the set-update idiom of
`update_lock_manifest_entry`. -/
def sortedInsert (x : String) (l : List String) : List String :=
  ((x :: l).dedup).insertionSort (fun a b => a ≤ b)

/-- `update_lock_manifest_entry` of step_03: grow (or create) the Lock Cache
Entry of `lock_signature` with the repo key, the manifest signature and the
provenance source. -/
def update_lock_manifest_entry (manifest : List (String × ManifestEntry))
    (lock_signature repo_key package_signature source : String) :
    List (String × ManifestEntry) :=
  let entry := (lookupKey lock_signature manifest).getD
    ⟨"package_lock/" ++ lock_signature ++ ".json", [], [], []⟩
  setKey lock_signature
    ⟨"package_lock/" ++ lock_signature ++ ".json",
      sortedInsert repo_key entry.repos,
      sortedInsert package_signature entry.packageSignatures,
      sortedInsert source entry.sources⟩
    manifest

/-- `_build_package_to_lock_map` of step_03: manifest signature →
(lock signature, preferred source), first entry wins. -/
def _build_package_to_lock_map (manifest : List (String × ManifestEntry)) :
    List (String × (String × String)) :=
  manifest.foldl
    (fun mapping entry =>
      let src := if "repository" ∈ entry.2.sources then "repository" else "generated"
      entry.2.packageSignatures.foldl
        (fun m pkg_sig =>
          if pkg_sig ≠ "" ∧ lookupKey pkg_sig m = none then m ++ [(pkg_sig, (entry.1, src))]
          else m)
        mapping)
    []

/-- An external acquisition call performed by the orchestration. -/
inductive AcqEvent where
  | fetchCall (repo_key : String) : AcqEvent
  | generateCall (repo_key : String) : AcqEvent
deriving DecidableEq, Repr

/-- The mutable state threaded through `get_package_lock`: the two document
stores, the lock manifest, the per-repo index, the in-memory
package-to-lock map, and the log of external calls. -/
structure Step03State where
  lockStore : List (String × PyVal)
  pkgJsonStore : List (String × PyVal)
  manifest : List (String × ManifestEntry)
  lockRepoIndex : List (String × LockRepoMeta)
  pkgToLock : List (String × (String × String))
  events : List AcqEvent

/-- `load_json_document` over a keyed store. -/
def load_json_document (store : List (String × PyVal)) (signature : String) :
    Option PyVal :=
  lookupKey signature store

/-- The body of the per-repository loop of `get_package_lock`: reuse the
per-repo cache if the manifest signature is unchanged, else reuse by
manifest signature through the package-to-lock map, else fetch the lock from
the repository, else generate it with npm; persist and index the result. -/
def processItem (fetch : RepoItem → Option PyVal) (generate : PyVal → Option PyVal)
    (packages_repo_index : List (String × String)) (force : Bool)
    (st : Step03State) (item : RepoItem) : Step03State :=
  let repo_key := build_repo_key item
  match lookupKey repo_key packages_repo_index with
  | none => st
  | some package_signature =>
    let lock_meta := lookupKey repo_key st.lockRepoIndex
    let cached_signature := match lock_meta with
      | some m => m.lockSignature
      | none => ""
    let cached_package_signature := match lock_meta with
      | some m => some m.packageSignature
      | none => none
    if ¬force ∧ cached_signature ≠ "" ∧
        cached_package_signature = some package_signature ∧
        (load_json_document st.lockStore cached_signature).isSome then
      st
    else
      let finishWith : Step03State → PyVal → String → Step03State :=
        fun st1 lock_content source =>
          let lock_signature := signature_for_json lock_content
          { st1 with
            lockStore := setKey lock_signature lock_content st1.lockStore,
            manifest := update_lock_manifest_entry st1.manifest lock_signature
              repo_key package_signature source,
            lockRepoIndex := setKey repo_key
              (build_lock_repo_metadata item package_signature lock_signature source)
              st1.lockRepoIndex,
            pkgToLock := setDefaultKey package_signature (lock_signature, source)
              st1.pkgToLock }
      let acquire : Step03State → Step03State := fun st1 =>
        let st2 := { st1 with events := st1.events ++ [AcqEvent.fetchCall repo_key] }
        match fetch item with
        | some lock_content => finishWith st2 lock_content "repository"
        | none =>
          match load_json_document st2.pkgJsonStore package_signature with
          | none => st2
          | some package_content =>
            let st3 := { st2 with events := st2.events ++ [AcqEvent.generateCall repo_key] }
            match generate package_content with
            | none => st3
            | some lock_content => finishWith st3 lock_content "generated"
      match (if ¬force then lookupKey package_signature st.pkgToLock else none) with
      | some mapped =>
        if (load_json_document st.lockStore mapped.1).isSome then
          { st with
            manifest := update_lock_manifest_entry st.manifest mapped.1
              repo_key package_signature mapped.2,
            lockRepoIndex := setKey repo_key
              (build_lock_repo_metadata item package_signature mapped.1 mapped.2)
              st.lockRepoIndex }
        else acquire st
      | none => acquire st

/-- `get_package_lock` of step_03 over a repository list, from a given
initial cache state (the in-memory package-to-lock map of the source is
`_build_package_to_lock_map` of the initial manifest). -/
def get_package_lock (fetch : RepoItem → Option PyVal)
    (generate : PyVal → Option PyVal)
    (packages_repo_index : List (String × String)) (force : Bool)
    (repos : List RepoItem) (st0 : Step03State) : Step03State :=
  repos.foldl (processItem fetch generate packages_repo_index force)
    { st0 with pkgToLock := _build_package_to_lock_map st0.manifest }

/-- Updating a key makes it present with the new value. -/
theorem lookupKey_setKey_self {α : Type} (k : String) (v : α) (l : List (String × α)) :
    lookupKey k (setKey k v l) = some v := by
  induction l with
  | nil => simp [setKey, lookupKey]
  | cons hd tl ih =>
    rw [setKey]
    by_cases hk : k = hd.1
    · cases hd; simp_all [lookupKey]
    · cases hd; simp_all [lookupKey]

/-- Updating another key leaves a lookup unchanged. -/
theorem lookupKey_setKey_ne {α : Type} {k k2 : String} (h : k ≠ k2) (v : α)
    (l : List (String × α)) :
    lookupKey k (setKey k2 v l) = lookupKey k l := by
  induction l with
  | nil => simp [setKey, lookupKey, h]
  | cons hd tl ih =>
    rw [setKey]
    by_cases hk : k2 = hd.1
    · cases hd with
      | mk k3 w =>
        simp at hk
        subst hk
        simp [lookupKey, h]
    · cases hd with
      | mk k3 w =>
        simp at hk
        rw [if_neg hk]
        by_cases hk3 : k = k3 <;> simp [lookupKey, hk3, ih]

/-- The inserted element is in the sorted set update. -/
theorem mem_sortedInsert_self (x : String) (l : List String) : x ∈ sortedInsert x l := by
  rw [sortedInsert]
  exact ((List.perm_insertionSort (fun a b : String => a ≤ b) _).mem_iff).mpr (by simp)

/-- The digest string has 64 characters. -/
theorem signature_for_json_length (document : PyVal) :
    (signature_for_json document).length = 64 := by
  rw [signature_for_json_eq, sha256hex]
  show ((sha256Words _).flatMap wordHexChars).length = 64
  rw [length_flatMap_wordHexChars, sha256Words_length]

/-- A digest is never the empty string. -/
theorem signature_for_json_ne_empty (document : PyVal) :
    signature_for_json document ≠ "" := by
  intro h
  have h64 := signature_for_json_length document
  rw [h] at h64
  simp at h64

/-- `processItem` when the per-repo cache already holds a loadable lock for
the unchanged manifest signature: nothing happens. -/
theorem processItem_cached_hit (fetch : RepoItem → Option PyVal)
    (generate : PyVal → Option PyVal)
    (packages_repo_index : List (String × String)) (st : Step03State)
    (item : RepoItem) (s : String) (m : LockRepoMeta)
    (hpk : lookupKey (build_repo_key item) packages_repo_index = some s)
    (hmeta : lookupKey (build_repo_key item) st.lockRepoIndex = some m)
    (hsg : m.lockSignature ≠ "")
    (hps : m.packageSignature = s)
    (hload : (load_json_document st.lockStore m.lockSignature).isSome = true) :
    processItem fetch generate packages_repo_index false st item = st := by
  rw [processItem]
  simp [hpk, hmeta, hsg, hps, hload]

/-- `processItem` when the repo is uncached but the manifest signature is in
the package-to-lock map with a loadable stored lock: the lock is reused with
no external call. -/
theorem processItem_map_reuse (fetch : RepoItem → Option PyVal)
    (generate : PyVal → Option PyVal)
    (packages_repo_index : List (String × String)) (st : Step03State)
    (item : RepoItem) (s : String) (mapped : String × String)
    (hpk : lookupKey (build_repo_key item) packages_repo_index = some s)
    (hmeta : lookupKey (build_repo_key item) st.lockRepoIndex = none)
    (hmap : lookupKey s st.pkgToLock = some mapped)
    (hload : (load_json_document st.lockStore mapped.1).isSome = true) :
    processItem fetch generate packages_repo_index false st item =
      { st with
        manifest := update_lock_manifest_entry st.manifest mapped.1
          (build_repo_key item) s mapped.2,
        lockRepoIndex := setKey (build_repo_key item)
          (build_lock_repo_metadata item s mapped.1 mapped.2) st.lockRepoIndex } := by
  rw [processItem]
  simp [hpk, hmeta, hmap, hload]

/-- `processItem` when the repo is uncached, the manifest signature is not
in the package-to-lock map, and the repository fetch succeeds: one fetch
call is performed and the lock is persisted and indexed. -/
theorem processItem_fresh_fetch (fetch : RepoItem → Option PyVal)
    (generate : PyVal → Option PyVal)
    (packages_repo_index : List (String × String)) (st : Step03State)
    (item : RepoItem) (s : String) (L : PyVal)
    (hpk : lookupKey (build_repo_key item) packages_repo_index = some s)
    (hmeta : lookupKey (build_repo_key item) st.lockRepoIndex = none)
    (hmap : lookupKey s st.pkgToLock = none)
    (hf : fetch item = some L) :
    processItem fetch generate packages_repo_index false st item =
      { st with
        lockStore := setKey (signature_for_json L) L st.lockStore,
        manifest := update_lock_manifest_entry st.manifest (signature_for_json L)
          (build_repo_key item) s "repository",
        lockRepoIndex := setKey (build_repo_key item)
          (build_lock_repo_metadata item s (signature_for_json L) "repository")
          st.lockRepoIndex,
        pkgToLock := setDefaultKey s (signature_for_json L, "repository") st.pkgToLock,
        events := st.events ++ [AcqEvent.fetchCall (build_repo_key item)] } := by
  rw [processItem]
  simp [hpk, hmeta, hmap, hf]

/-- C5: within a single run of `get_package_lock` starting from a cold lock
cache, for any two repository entries whose cached manifests share one
manifest signature, at most one external fetch-or-generation call is
performed across both (here: exactly the one successful fetch for the first
repository); the second repository reuses the stored lock found by looking
the manifest signature up, both per-repo index entries reference the same
lock signature, and the Lock Cache Entry of that signature lists the shared
manifest signature in its `packageSignatures` set. -/
theorem C5_theorem :
    ∀ (fetch : RepoItem → Option PyVal) (generate : PyVal → Option PyVal)
      (packages_repo_index : List (String × String))
      (lockStore pkgJsonStore : List (String × PyVal))
      (i1 i2 : RepoItem) (s : String) (L1 : PyVal) (st : Step03State),
      lookupKey (build_repo_key i1) packages_repo_index = some s →
      lookupKey (build_repo_key i2) packages_repo_index = some s →
      fetch i1 = some L1 →
      st = get_package_lock fetch generate packages_repo_index false [i1, i2]
        ⟨lockStore, pkgJsonStore, [], [], [], []⟩ →
      st.events = [AcqEvent.fetchCall (build_repo_key i1)] ∧
        (∃ m1, lookupKey (build_repo_key i1) st.lockRepoIndex = some m1 ∧
          m1.lockSignature = signature_for_json L1) ∧
        (∃ m2, lookupKey (build_repo_key i2) st.lockRepoIndex = some m2 ∧
          m2.lockSignature = signature_for_json L1) ∧
        (∃ e, lookupKey (signature_for_json L1) st.manifest = some e ∧
          s ∈ e.packageSignatures) := by
  intro fetch generate packages_repo_index lockStore pkgJsonStore i1 i2 s L1 st
    h1 h2 hf hst
  set k1 := build_repo_key i1 with hk1
  set k2 := build_repo_key i2 with hk2
  set sig := signature_for_json L1 with hsig
  set meta1 := build_lock_repo_metadata i1 s sig "repository" with hm1
  have hstep1 : processItem fetch generate packages_repo_index false
      ⟨lockStore, pkgJsonStore, [], [], [], []⟩ i1 =
      ⟨setKey sig L1 lockStore, pkgJsonStore,
        update_lock_manifest_entry [] sig k1 s "repository", [(k1, meta1)],
        [(s, (sig, "repository"))], [AcqEvent.fetchCall k1]⟩ := by
    rw [processItem_fresh_fetch fetch generate packages_repo_index _ i1 s L1 h1
      (by simp [lookupKey]) (by simp [lookupKey]) hf]
    simp [setKey, setDefaultKey, lookupKey]
  have hins : ∀ x : String, sortedInsert x [] = [x] := by
    intro x
    simp [sortedInsert, List.insertionSort]
  set e1 : ManifestEntry :=
    ⟨"package_lock/" ++ sig ++ ".json", [k1], [s], ["repository"]⟩ with he1def
  have he1 : update_lock_manifest_entry [] sig k1 s "repository" = [(sig, e1)] := by
    simp [update_lock_manifest_entry, lookupKey, setKey, hins, he1def]
  set st1 : Step03State :=
    ⟨setKey sig L1 lockStore, pkgJsonStore, [(sig, e1)], [(k1, meta1)],
      [(s, (sig, "repository"))], [AcqEvent.fetchCall k1]⟩ with hst1
  have hget : get_package_lock fetch generate packages_repo_index false [i1, i2]
      ⟨lockStore, pkgJsonStore, [], [], [], []⟩ =
      processItem fetch generate packages_repo_index false st1 i2 := by
    rw [get_package_lock]
    simp only [_build_package_to_lock_map, List.foldl]
    rw [hstep1, he1]
  have hloadsig : (load_json_document (setKey sig L1 lockStore) sig).isSome = true := by
    rw [load_json_document, lookupKey_setKey_self]
    rfl
  by_cases hk : k2 = k1
  · have hstep2 : processItem fetch generate packages_repo_index false st1 i2 = st1 := by
      refine processItem_cached_hit fetch generate packages_repo_index st1 i2 s meta1
        (hk2 ▸ h2) ?_ ?_ ?_ ?_
      · rw [← hk2, hk]
        simp [hst1, lookupKey]
      · exact signature_for_json_ne_empty L1
      · rfl
      · exact hloadsig
    rw [hst, hget, hstep2]
    refine ⟨rfl, ⟨meta1, ?_, rfl⟩, ⟨meta1, ?_, rfl⟩, ⟨e1, ?_, by simp [he1def]⟩⟩
    · simp [hst1, lookupKey]
    · simp [hst1, lookupKey, hk]
    · simp [hst1, lookupKey]
  · have hstep2 : processItem fetch generate packages_repo_index false st1 i2 =
        { st1 with
          manifest := update_lock_manifest_entry st1.manifest sig k2 s "repository",
          lockRepoIndex := setKey k2 (build_lock_repo_metadata i2 s sig "repository")
            st1.lockRepoIndex } := by
      exact processItem_map_reuse fetch generate packages_repo_index st1 i2 s
        (sig, "repository") h2 (by simp [hst1, lookupKey, hk]) (by simp [hst1, lookupKey])
        hloadsig
    have hman2 : update_lock_manifest_entry st1.manifest sig k2 s "repository" =
        [(sig, (⟨"package_lock/" ++ sig ++ ".json", sortedInsert k2 [k1],
          sortedInsert s [s], sortedInsert "repository" ["repository"]⟩ : ManifestEntry))] := by
      simp [hst1, update_lock_manifest_entry, lookupKey, setKey, he1def]
    rw [hst, hget, hstep2]
    refine ⟨by simp [hst1], ⟨meta1, ?_, rfl⟩,
      ⟨build_lock_repo_metadata i2 s sig "repository", ?_, rfl⟩, ?_⟩
    · show lookupKey k1 (setKey k2 (build_lock_repo_metadata i2 s sig "repository")
        st1.lockRepoIndex) = some meta1
      rw [lookupKey_setKey_ne (fun h => hk h.symm)]
      simp [hst1, lookupKey]
    · exact lookupKey_setKey_self _ _ _
    · refine ⟨⟨"package_lock/" ++ sig ++ ".json", sortedInsert k2 [k1],
        sortedInsert s [s], sortedInsert "repository" ["repository"]⟩, ?_, ?_⟩
      · show lookupKey sig (update_lock_manifest_entry st1.manifest sig k2 s "repository") = _
        rw [hman2]
        simp [lookupKey]
      · exact mem_sortedInsert_self s [s]

/-- Witness for C5: two concrete repositories sharing the manifest signature
`"pkgsig"`; the first fetch succeeds, the run performs exactly that one
external call and both index entries share the lock signature. -/
theorem C5_witness :
    (get_package_lock
        (fun item => if item.repositoryId = "1"
          then some (.dict [("name", .str "demo")]) else none)
        (fun _ => none)
        [("1|main|/a/package.json", "pkgsig"), ("2|main|/b/package.json", "pkgsig")]
        false
        [⟨"1", "RepoA", "proj", "/a/package.json", "main"⟩,
         ⟨"2", "RepoB", "proj", "/b/package.json", "main"⟩]
        ⟨[], [], [], [], [], []⟩).events =
      [AcqEvent.fetchCall
        (build_repo_key ⟨"1", "RepoA", "proj", "/a/package.json", "main"⟩)] ∧
    (∃ m1, lookupKey (build_repo_key ⟨"1", "RepoA", "proj", "/a/package.json", "main"⟩)
        (get_package_lock
          (fun item => if item.repositoryId = "1"
            then some (.dict [("name", .str "demo")]) else none)
          (fun _ => none)
          [("1|main|/a/package.json", "pkgsig"), ("2|main|/b/package.json", "pkgsig")]
          false
          [⟨"1", "RepoA", "proj", "/a/package.json", "main"⟩,
           ⟨"2", "RepoB", "proj", "/b/package.json", "main"⟩]
          ⟨[], [], [], [], [], []⟩).lockRepoIndex = some m1 ∧
      m1.lockSignature = signature_for_json (.dict [("name", .str "demo")])) ∧
    (∃ m2, lookupKey (build_repo_key ⟨"2", "RepoB", "proj", "/b/package.json", "main"⟩)
        (get_package_lock
          (fun item => if item.repositoryId = "1"
            then some (.dict [("name", .str "demo")]) else none)
          (fun _ => none)
          [("1|main|/a/package.json", "pkgsig"), ("2|main|/b/package.json", "pkgsig")]
          false
          [⟨"1", "RepoA", "proj", "/a/package.json", "main"⟩,
           ⟨"2", "RepoB", "proj", "/b/package.json", "main"⟩]
          ⟨[], [], [], [], [], []⟩).lockRepoIndex = some m2 ∧
      m2.lockSignature = signature_for_json (.dict [("name", .str "demo")])) ∧
    (∃ e, lookupKey (signature_for_json (.dict [("name", .str "demo")]))
        (get_package_lock
          (fun item => if item.repositoryId = "1"
            then some (.dict [("name", .str "demo")]) else none)
          (fun _ => none)
          [("1|main|/a/package.json", "pkgsig"), ("2|main|/b/package.json", "pkgsig")]
          false
          [⟨"1", "RepoA", "proj", "/a/package.json", "main"⟩,
           ⟨"2", "RepoB", "proj", "/b/package.json", "main"⟩]
          ⟨[], [], [], [], [], []⟩).manifest = some e ∧
      "pkgsig" ∈ e.packageSignatures) :=
  C5_theorem
    (fun item => if item.repositoryId = "1"
      then some (.dict [("name", .str "demo")]) else none)
    (fun _ => none)
    [("1|main|/a/package.json", "pkgsig"), ("2|main|/b/package.json", "pkgsig")]
    [] []
    ⟨"1", "RepoA", "proj", "/a/package.json", "main"⟩
    ⟨"2", "RepoB", "proj", "/b/package.json", "main"⟩
    "pkgsig" (.dict [("name", .str "demo")])
    (get_package_lock
      (fun item => if item.repositoryId = "1"
        then some (.dict [("name", .str "demo")]) else none)
      (fun _ => none)
      [("1|main|/a/package.json", "pkgsig"), ("2|main|/b/package.json", "pkgsig")]
      false
      [⟨"1", "RepoA", "proj", "/a/package.json", "main"⟩,
       ⟨"2", "RepoB", "proj", "/b/package.json", "main"⟩]
      ⟨[], [], [], [], [], []⟩)
    (by decide) (by decide) rfl rfl

end NpmScan
